import Mathlib

/-!
Verification of the `DataFrame` class of `src/lib/dataframe.js` (pandas-js).

The JavaScript code is shallowly embedded: JS values are the inductive
`Value` (numbers are modelled as exact rationals `ℚ`, with a separate `nan`
marker for NaN; JS objects are assoc lists in insertion order), a data frame
is the structure `DataFrame`, and each method of the class is translated to
a Lean function of the same name.  Fallible code returns `Except DFError`.
The ECMAScript stable `Array.prototype.sort` is modelled by a stable
insertion sort (`stableSort`).
-/

/-- A JavaScript value, as used by the DataFrame code: numbers (modelled as
exact rationals, NaN kept as a separate marker), strings, booleans,
`undefined`, arrays, and plain objects (assoc lists in key-insertion order,
keys unique). There is no `null` in this code base. -/
inductive Value where
  | num (q : ℚ)
  | str (s : String)
  | bool (b : Bool)
  | undef
  | nan
  | arr (elems : List Value)
  | obj (fields : List (String × Value))
deriving Repr

/-- `Array.isArray(v)`. -/
def Value.isArray : Value → Bool
  | .arr _ => true
  | _ => false

/-- Does the value carry the object tag (a plain record)? -/
def Value.isObj : Value → Bool
  | .obj _ => true
  | _ => false

/-- Is the value a string? -/
def Value.isStr : Value → Bool
  | .str _ => true
  | _ => false

/-- Is the value a (non-NaN) number? -/
def Value.isNum : Value → Bool
  | .num _ => true
  | _ => false

/-- Is the value `undefined`? Reading a property (such as `[0]`) from an
`undefined` receiver throws a TypeError in JS. -/
def Value.isUndefined : Value → Bool
  | .undef => true
  | _ => false

/-- JS `typeof` tag of a value (`typeof NaN` is `"number"`,
`typeof []` and `typeof {}` are `"object"`). -/
def typeOf : Value → String
  | .num _ => "number"
  | .nan => "number"
  | .str _ => "string"
  | .bool _ => "boolean"
  | .undef => "undefined"
  | .arr _ => "object"
  | .obj _ => "object"

/-- JS truthiness of a value. -/
def isTruthy : Value → Bool
  | .num q => decide (q ≠ 0)
  | .nan => false
  | .str s => !s.isEmpty
  | .bool b => b
  | .undef => false
  | .arr _ => true
  | .obj _ => true

/-- Property read `row[key]` for string keys: on an object it is assoc-list
lookup (JS objects have unique keys), missing keys and non-object receivers
give `undefined` (a non-index string key on an array, string, number or
boolean reads no own property in this code base). -/
def rowGet : Value → String → Value
  | .obj fields, k => ((fields.lookup k).getD .undef)
  | _, _ => (.undef)

/-- Indexed read `v[i]` for a natural index: array element, or the `i`-th
field by stringified key on an object, `undefined` otherwise (out of range
included). String character indexing is not used by the code on this path. -/
def valueIndex : Value → Nat → Value
  | .arr l, i => l.getD i (.undef)
  | .obj fs, i => ((fs.lookup (toString i)).getD .undef)
  | _, _ => (.undef)

/-- `l[i]` for a possibly negative index: JS returns `undefined` outside
`[0, length)`. -/
def listGetInt (l : List Value) (i : Int) : Value :=
  if 0 ≤ i ∧ i < l.length then l.getD i.toNat .undef else (.undef)

/-- JS object assignment `o[k] = v`: overwrite in place if the key exists,
append otherwise (insertion order preserved). -/
def objInsert : List (String × Value) → String → Value → List (String × Value)
  | [], k, v => [(k, v)]
  | (k', v') :: rest, k, v =>
    if k' = k then (k', v) :: rest else (k', v') :: objInsert rest k v

/-- Build a JS object from a sequence of assignments (later assignments to
the same key overwrite, first assignment fixes the position). -/
def objOfAssignments (ps : List (String × Value)) : List (String × Value) :=
  ps.foldl (fun o p => objInsert o p.1 p.2) []

/-- `Object.keys(v)`: field names of an object, index strings for arrays and
strings, `[]` for other primitives (the code never reaches the `undefined`
case, which would throw). -/
def objectKeys : Value → List String
  | .obj fs => fs.map (·.1)
  | .arr l => (List.range l.length).map toString
  | .str s => (List.range s.length).map toString
  | _ => []

/-- Lexicographic comparison of character lists by code point — the order JS
uses for string comparison (code units; they agree on the scalar values this
code handles). -/
def charsLt : List Char → List Char → Bool
  | [], [] => false
  | [], _ :: _ => true
  | _ :: _, [] => false
  | a :: as, b :: bs =>
    if a.toNat < b.toNat then true
    else if b.toNat < a.toNat then false
    else charsLt as bs

/-- JS string comparison `s < t`. -/
def strLt (s t : String) : Bool := charsLt s.data t.data

/-- Display form of a JS number. Integral rationals print as in JS
(`"25"`); non-integral ones use the exact `ℚ` print, which is injective and
is only a display approximation of JS float printing (the claims only rely
on distinctness, and on integral values where the strings coincide). -/
def ratToDisplay (q : ℚ) : String := toString q

/-- Join a list of strings with commas (used by array-to-string and by the
JSON serialisation). -/
def commaJoin : List String → String
  | [] => ""
  | [s] => s
  | s :: rest => s ++ "," ++ commaJoin rest

mutual

/-- JS `String(v)` / `ToString` coercion: numbers and booleans print
themselves, `undefined` prints "undefined", NaN prints "NaN", arrays join
their elements with commas (with `undefined` elements contributing the
empty string, as `Array.prototype.join` does), and plain objects print
"[object Object]". -/
def jsToString : Value → String
  | .num q => ratToDisplay q
  | .str s => s
  | .bool b => if b then "true" else "false"
  | .undef => "undefined"
  | .nan => "NaN"
  | .arr l => commaJoin (jsToStringList l)
  | .obj _ => "[object Object]"

/-- Element-wise string coercion used by `Array.prototype.join`:
`undefined` becomes the empty string. -/
def jsToStringList : List Value → List String
  | [] => []
  | v :: rest =>
    (match v with
     | .undef => ""
     | w => jsToString w) :: jsToStringList rest

end

/-- Numeric value of a digit run. -/
def digitsVal (l : List Char) : Nat :=
  l.foldl (fun a c => a * 10 + (c.toNat - 48)) 0

/-- JS `Number(string)` on the shapes this code can meet: optional
whitespace trimming, empty string is 0, optional sign, decimal digits with
an optional fraction part; anything else is NaN (`none`). Exponents, hex
literals and "Infinity" are not produced by this code base and are mapped
to NaN. -/
def parseNumber? (s : String) : Option ℚ :=
  let t := s.trim
  if t.isEmpty then some 0 else
  let chars := t.data
  let (sgn, ds) : ℚ × List Char :=
    match chars with
    | c :: r => if c = '-' then (-1, r) else if c = '+' then (1, r) else (1, chars)
    | [] => (1, chars)
  let ip := ds.takeWhile (·.isDigit)
  let rest := ds.dropWhile (·.isDigit)
  match rest with
  | [] => if ip.isEmpty then none else some (sgn * (digitsVal ip : ℚ))
  | '.' :: fp =>
    if fp.all (·.isDigit) && (!ip.isEmpty || !fp.isEmpty) then
      some (sgn * ((digitsVal ip : ℚ) + (digitsVal fp : ℚ) / ((10 : ℚ) ^ fp.length)))
    else none
  | _ => none

/-- `ToPrimitive` with the default/number hint as it acts before comparison
and arithmetic: arrays and objects are replaced by their string coercion,
primitives pass through. -/
def toPrim (v : Value) : Value :=
  match v with
  | .arr _ => .str (jsToString v)
  | .obj _ => .str (jsToString v)
  | w => w

/-- JS `ToNumber` of a primitive-coerced value; `none` is NaN. -/
def toNumber? (v : Value) : Option ℚ :=
  match toPrim v with
  | .num q => some q
  | .nan => none
  | .bool b => some (if b then 1 else 0)
  | .undef => none
  | .str s => parseNumber? s
  | .arr _ => none
  | .obj _ => none

/-- JS abstract relational comparison `a < b`: if both operands coerce to
strings, compare lexicographically; otherwise compare as numbers, any NaN
making the comparison false. -/
def jsLt (a b : Value) : Bool :=
  match toPrim a, toPrim b with
  | .str s1, .str s2 => strLt s1 s2
  | a', b' =>
    match toNumber? a', toNumber? b' with
    | some x, some y => decide (x < y)
    | _, _ => false

/-- JS `a > b`, which is the relational comparison `b < a`. -/
def jsGt (a b : Value) : Bool := jsLt b a

/-- JS `a + b`: string concatenation if either primitive-coerced operand is
a string, numeric addition otherwise (NaN propagates). -/
def jsAdd (a b : Value) : Value :=
  let a' := toPrim a
  let b' := toPrim b
  if a'.isStr || b'.isStr then .str (jsToString a' ++ jsToString b')
  else
    match toNumber? a', toNumber? b' with
    | some x, some y => .num (x + y)
    | _, _ => .nan

/-- JS `a - b` (always numeric, NaN propagates). -/
def jsSub (a b : Value) : Value :=
  match toNumber? a, toNumber? b with
  | some x, some y => .num (x - y)
  | _, _ => .nan

/-- JS `a / b`. Division by zero: the only zero-divisor reachable in this
code is `0 / 0`, which is NaN; the model maps every division by zero to
NaN. -/
def jsDiv (a b : Value) : Value :=
  match toNumber? a, toNumber? b with
  | some x, some y => if y = 0 then .nan else .num (x / y)
  | _, _ => .nan

/-- `Math.pow(v, 2)`: square of the numeric coercion, NaN propagates. -/
def jsPow2 (v : Value) : Value :=
  match toNumber? v with
  | some x => .num (x * x)
  | none => .nan

/-- Escape for JSON string serialisation (backslash and double quote; the
control-character escapes are not needed by any claim and are left as the
characters themselves). -/
def jsonEscape (s : String) : String :=
  String.join (s.data.map (fun c =>
    if c = '\\' then "\\\\"
    else if c = '"' then "\\\"" else String.singleton c))

mutual

/-- `JSON.stringify` of a value appearing inside an array or as a kept
object field: `undefined` and NaN serialise as `null`, strings are quoted
and escaped, objects drop fields whose value is `undefined`. -/
def jsonStr : Value → String
  | .num q => ratToDisplay q
  | .nan => "null"
  | .str s => "\"" ++ jsonEscape s ++ "\""
  | .bool b => if b then "true" else "false"
  | .undef => "null"
  | .arr l => "[" ++ commaJoin (jsonStrList l) ++ "]"
  | .obj fs => "\x7b" ++ commaJoin (jsonStrFields fs) ++ "\x7d"

/-- Serialise array elements. -/
def jsonStrList : List Value → List String
  | [] => []
  | v :: rest => jsonStr v :: jsonStrList rest

/-- Serialise object fields, skipping entries whose value is `undefined`
(as `JSON.stringify` does). -/
def jsonStrFields : List (String × Value) → List String
  | [] => []
  | (k, v) :: rest =>
    match v with
    | .undef => jsonStrFields rest
    | w => ("\"" ++ jsonEscape k ++ "\":" ++ jsonStr w) :: jsonStrFields rest

end

/-- Insert an element into a sorted list, before the first element `b` with
`le a b` — the placement a stable sort gives an element that was earlier in
the original order than the elements already in the list. -/
def stableInsert (le : Value → Value → Bool) (a : Value) : List Value → List Value
  | [] => [a]
  | b :: l => if le a b then a :: b :: l else b :: stableInsert le a l

/-- Stable comparison sort: the model of the ECMAScript (2019 and later)
`Array.prototype.sort`, whose result is required to be stable and, for a
consistent comparator, sorted. `le a b` stands for "comparator(a,b) <= 0". -/
def stableSort (le : Value → Value → Bool) : List Value → List Value
  | [] => []
  | a :: l => stableInsert le a (stableSort le l)

/-- The errors the DataFrame class throws. `typeError` stands for the
runtime TypeErrors raised by evaluating JS primitives on unsupported
shapes (e.g. `data.map` when `data` is not an array); the named errors are
the `new Error(...)` messages thrown by the class itself. -/
inductive DFError where
  | invalidInputFormat
  | indexOutOfRange
  | columnNotFound
  | invalidAggregationFunction (column : String)
  | typeError
deriving Repr, DecidableEq

/-- The DataFrame instance state: `this.columns`, `this.data`,
`this.dtypes` (a JS object mapping column names to type tags, modelled as
an assoc list built in `columns` order). Rows are `Value`s — the records
branch of the constructor stores arbitrary input elements as rows. -/
structure DataFrame where
  columns : List String
  data : List Value
  dtypes : List (String × String)
deriving Repr

/-- `Array.from(new Set(l))`: deduplicate keeping first occurrences. -/
def setDedup (l : List String) : List String :=
  l.foldl (fun acc s => if acc.contains s then acc else acc ++ [s]) []

/-- `#detectColumnType`: the set of `typeof` tags over the column's values;
a single tag is the dtype, otherwise "mixed" (an empty table also falls in
the "mixed" branch: the tag set is empty). -/
def detectColumnType (data : List Value) (name : String) : String :=
  let types := setDedup ((data.map (fun r => rowGet r name)).map typeOf)
  match types with
  | [t] => t
  | _ => "mixed"

/-- `#detectColumnTypes`: dtype entry for every column, in column order. -/
def detectColumnTypes (columns : List String) (data : List Value) :
    List (String × String) :=
  columns.map (fun c => (c, detectColumnType data c))

/-- Auto-generated column names `column1..columnN`. -/
def autoCols (width : Nat) : List String :=
  (List.range width).map (fun i => "column" ++ toString (i + 1))

/-- `data[0]` as read by the constructor. -/
def index0 (data : Value) : Value :=
  match data with
  | .arr l => l.headD (.undef)
  | .obj fs => ((fs.lookup "0").getD .undef)
  | _ => (.undef)

/-- The row-array-to-record conversion of the constructor's array-of-arrays
branch: `this.columns.forEach((column, index) => obj[column] = row[index])`. -/
def rowArrayToRecord (cols : List String) (row : Value) : Value :=
  .obj (objOfAssignments (cols.enum.map (fun ic => (ic.2, valueIndex row ic.1))))

/-- The `DataFrame` constructor. `columnsParam` is the optional `columns`
argument (when present it is an array, so the `Array.isArray(columns)`
guard is folded into presence). An `undefined` `data` throws a TypeError
at the very first expression `data[0]`, before any shape check. The
array-of-arrays branch is entered whenever `data[0]` is an array; if
`data` itself is then not an array, `data.map` throws a TypeError. In the
records branch, a falsy `data[0]` with no `columns` argument leaves
`this.columns` undefined and the `for..of` of `#detectColumnTypes` throws
a TypeError. -/
def mkDataFrame (data : Value) (columnsParam : Option (List String)) :
    Except DFError DataFrame :=
  if data.isUndefined then
    .error .typeError
  else if (index0 data).isArray then
    match data with
    | .arr rows =>
      let width :=
        match index0 data with
        | .arr l => l.length
        | _ => 0
      let cols :=
        match columnsParam with
        | some cs => if cs.length = width then cs else autoCols width
        | none => autoCols width
      let newData := rows.map (rowArrayToRecord cols)
      .ok ⟨cols, newData, detectColumnTypes cols newData⟩
    | _ => .error .typeError
  else if data.isArray then
    match data with
    | .arr rows =>
      if isTruthy (index0 data) then
        .ok ⟨objectKeys (index0 data), rows,
             detectColumnTypes (objectKeys (index0 data)) rows⟩
      else
        match columnsParam with
        | some cs => .ok ⟨cs, rows, detectColumnTypes cs rows⟩
        | none => .error .typeError
    | _ => .error .typeError
  else
    .error .invalidInputFormat

namespace DataFrame

/-- `#getColumn`: the column's values in row order, with no existence
check — a missing column reads `undefined` from every row. -/
def getColumn (df : DataFrame) (name : String) : List Value :=
  df.data.map (fun r => rowGet r name)

/-- `getDataFrame()`. -/
def getDataFrame (df : DataFrame) : List Value := df.data

/-- `getRow(index)`: throws "Index out of range" only when
`index > this.data.length`; any other index — including `length` itself and
negative values — is read directly, an out-of-bounds read giving
`undefined`. -/
def getRow (df : DataFrame) (index : Int) : Except DFError Value :=
  if index > (df.data.length : Int) then .error .indexOutOfRange
  else .ok (listGetInt df.data index)

/-- Start/end index clamping of `Array.prototype.slice`. -/
def jsSliceIdx (len : Nat) (i : Int) : Nat :=
  if i < 0 then ((len : Int) + i).toNat else min i.toNat len

/-- `Array.prototype.slice(start, end?)`. -/
def jsSlice (l : List Value) (s : Int) (e : Option Int) : List Value :=
  let si := jsSliceIdx l.length s
  let ei :=
    match e with
    | some x => jsSliceIdx l.length x
    | none => l.length
  (l.take ei).drop si

/-- `head(n)`: `this.data.slice(0, n)` (also printed to the console — an
I/O effect outside the value model). -/
def head (df : DataFrame) (n : Nat) : List Value :=
  jsSlice df.data 0 (some n)

/-- `tail(n)`: `this.data.slice(-n)` (also printed to the console). -/
def tail (df : DataFrame) (n : Nat) : List Value :=
  jsSlice df.data (-(n : Int)) none

/-- `shape`. -/
def shape (df : DataFrame) : String :=
  "(" ++ toString df.data.length ++ ", " ++ toString df.columns.length ++ ")"

/-- `#getColumnData` / `get(columnName)`: throws "Column does not exist"
when the name is not in `columns`. -/
def get (df : DataFrame) (name : String) : Except DFError (List Value) :=
  if df.columns.contains name then .ok (df.getColumn name)
  else .error .columnNotFound

/-- Record projection used by `select` and `dropColumns`:
`for (column of newColumns) newRow[column] = row[column]`. -/
def projectRow (cols : List String) (row : Value) : Value :=
  .obj (objOfAssignments (cols.map (fun c => (c, rowGet row c))))

/-- `select(columns)` (the single-name overload passes `[name]`). -/
def select (df : DataFrame) (columnsToSelect : List String) :
    Except DFError DataFrame :=
  let newColumns := columnsToSelect.filter (fun c => df.columns.contains c)
  let newData := df.data.map (projectRow newColumns)
  mkDataFrame (.arr newData) (some newColumns)

/-- `filter(condition)`: the predicate's JS return value is kept by
truthiness. -/
def filter (df : DataFrame) (condition : Value → Value) :
    Except DFError DataFrame :=
  let filteredData := df.data.filter (fun r => isTruthy (condition r))
  mkDataFrame (.arr filteredData) (some df.columns)

/-- The comparator closure of `sortBy`, returning the JS comparator value
-1/1/0: walk the listed columns, the first strict `<` or `>` decides. -/
def rowCmp (names : List String) (ascending : Bool) (r1 r2 : Value) : Int :=
  match names with
  | [] => 0
  | n :: rest =>
    let v1 := rowGet r1 n
    let v2 := rowGet r2 n
    if jsLt v1 v2 then (if ascending then -1 else 1)
    else if jsGt v1 v2 then (if ascending then 1 else -1)
    else rowCmp rest ascending r1 r2

/-- `sortBy(columns, ascending)`: stable sort of a copy of `this.data`
under the comparator, then a new DataFrame with the same columns. -/
def sortBy (df : DataFrame) (names : List String) (ascending : Bool := true) :
    Except DFError DataFrame :=
  let sortData := stableSort (fun r1 r2 => rowCmp names ascending r1 r2 ≤ 0) df.data
  mkDataFrame (.arr sortData) (some df.columns)

/-- The grouping key: `JSON.stringify(columns.map(c => row[c]))`. -/
def groupKey (names : List String) (row : Value) : String :=
  jsonStr (.arr (names.map (rowGet row)))

/-- One step of the `groupBy` loop over an insertion-ordered map from key
strings to row buckets. -/
def addToGroups (gs : List (String × List Value)) (k : String) (r : Value) :
    List (String × List Value) :=
  match gs with
  | [] => [(k, [r])]
  | (k', rs) :: rest =>
    if k' = k then (k', rs ++ [r]) :: rest else (k', rs) :: addToGroups rest k r

/-- The buckets of `groupBy` in first-seen key order (the JS `Map`
preserves insertion order), rows within a bucket in original order. -/
def groupBuckets (names : List String) (data : List Value) :
    List (String × List Value) :=
  data.foldl (fun gs r => addToGroups gs (groupKey names r) r) []

/-- `groupBy(columns)`: the bucket list (an array of arrays of row records)
is handed back to the constructor together with `this.columns`. -/
def groupBy (df : DataFrame) (names : List String) : Except DFError DataFrame :=
  let groupData := (groupBuckets names df.data).map (fun g => Value.arr g.2)
  mkDataFrame (.arr groupData) (some df.columns)

end DataFrame

/-- A value of the `aggregations` mapping: either an invokable reducer
(`typeof fn === "function"`) or any other value. -/
inductive AggSpec where
  | func (f : List Value → Value)
  | nonFunc (v : Value)

namespace DataFrame

/-- `aggregate(aggregations)`: walks the mapping entries in order; a
non-invokable entry throws `Invalid aggregation function for column '...'`
naming the column; an invokable one is applied to the full column data
(fetched through the check-free `#getColumn`). -/
def aggregate (df : DataFrame) : List (String × AggSpec) →
    Except DFError (List (String × Value))
  | [] => .ok []
  | (c, .func f) :: rest => do
    let tailAgg ← df.aggregate rest
    .ok ((c, f (df.getColumn c)) :: tailAgg)
  | (c, .nonFunc _) :: _ => .error (.invalidAggregationFunction c)

/-- `mean(columnName)`: `reduce((acc, val) => acc + val, 0)` divided by the
length. -/
def mean (df : DataFrame) (name : String) : Value :=
  let columnData := df.getColumn name
  let sum := columnData.foldl jsAdd (.num 0)
  jsDiv sum (.num (columnData.length : ℚ))

/-- The comparator `(a, b) => a - b` of `median`, as the sort lowers it to a
"less or equal" test: `undefined` elements sort to the end without the
comparator being called; a NaN comparator result counts as a tie. -/
def medianLe (a b : Value) : Bool :=
  match a, b with
  | .undef, .undef => true
  | .undef, _ => false
  | _, .undef => true
  | _, _ =>
    match toNumber? a, toNumber? b with
    | some x, some y => decide (x ≤ y)
    | _, _ => true

/-- `median(columnName)`: numeric sort of the column copy, middle element
for odd length, average of the two central elements for even length (the
even branch on an empty column reads `undefined` twice and yields NaN). -/
def median (df : DataFrame) (name : String) : Value :=
  let sortedData := stableSort medianLe (df.getColumn name)
  let mid := sortedData.length / 2
  if sortedData.length % 2 = 0 then
    jsDiv (jsAdd (listGetInt sortedData ((mid : Int) - 1))
                 (listGetInt sortedData (mid : Int))) (.num 2)
  else listGetInt sortedData (mid : Int)

/-- The running state of the `mode` loop: the frequency object (keyed by
the JS string coercion of the value), the running maximum, and the modes
list. -/
structure ModeState where
  freq : String → Nat
  maxFreq : Nat
  modes : List Value

/-- One iteration of the `mode` loop. `frequencyMap[value] + 1 || 1` is the
increment-or-initialise of the tally for the value's string key. -/
def modeStep (st : ModeState) (v : Value) : ModeState :=
  let k := jsToString v
  let c := st.freq k + 1
  let freq := fun k2 => if k2 = k then c else st.freq k2
  if c > st.maxFreq then ⟨freq, c, [v]⟩
  else if c = st.maxFreq then ⟨freq, st.maxFreq, st.modes ++ [v]⟩
  else ⟨freq, st.maxFreq, st.modes⟩

/-- `mode(columnName)`: single pass tallying string-keyed frequencies. -/
def mode (df : DataFrame) (name : String) : List Value :=
  ((df.getColumn name).foldl modeStep ⟨fun _ => 0, 0, []⟩).modes

/-- The result of `std`: `Math.sqrt` applied to the exact variance. The
square root of a rational is irrational in general, so it is kept symbolic:
`sqrtOf q` is the JS float `Math.sqrt(q)`; a NaN radicand gives NaN. -/
inductive SqrtVal where
  | nan
  | sqrtOf (q : ℚ)
deriving Repr, DecidableEq

/-- `std(columnName)`: population standard deviation — mean of squared
deviations from the column mean, square-rooted. -/
def std (df : DataFrame) (name : String) : SqrtVal :=
  let columnData := df.getColumn name
  let m := df.mean name
  let sumSquaredDiff :=
    columnData.foldl (fun acc val => jsAdd acc (jsPow2 (jsSub val m))) (.num 0)
  let variance := jsDiv sumSquaredDiff (.num (columnData.length : ℚ))
  match toNumber? variance with
  | none => .nan
  | some q => if q < 0 then .nan else .sqrtOf q

/-- `columns[oldColumn] || oldColumn` of `renameColumns`: a missing — or
falsy, i.e. empty — new name falls back to the old one. -/
def renameLookup (m : List (String × String)) (old : String) : String :=
  match m.lookup old with
  | some s => if s.isEmpty then old else s
  | none => old

/-- `renameColumns(columns)`: in-place rename of columns and row keys,
dtypes recomputed. The returned structure is the receiver's state after
the call. -/
def renameColumns (df : DataFrame) (m : List (String × String)) : DataFrame :=
  let newColumns := df.columns.map (renameLookup m)
  let newData := df.data.map (fun row =>
    Value.obj (objOfAssignments (df.columns.map (fun oldc =>
      (renameLookup m oldc, rowGet row oldc)))))
  ⟨newColumns, newData, detectColumnTypes newColumns newData⟩

/-- `dropColumns(columns)`: in-place removal of the listed columns (the
single-name overload passes `[name]`), dtypes recomputed. The returned
structure is the receiver's state after the call. -/
def dropColumns (df : DataFrame) (columnsToDrop : List String) : DataFrame :=
  let newColumns := df.columns.filter (fun c => !columnsToDrop.contains c)
  let newData := df.data.map (projectRow newColumns)
  ⟨newColumns, newData, detectColumnTypes newColumns newData⟩

/-- `select` with the receiver state threaded explicitly: the pair is
(returned table, receiver after the call). The method body assigns nothing
to `this`, so the receiver after the call is the receiver itself. -/
def selectM (df : DataFrame) (cols : List String) :
    Except DFError DataFrame × DataFrame :=
  (df.select cols, df)

/-- `filter` with the receiver state threaded explicitly (no assignment to
`this` in the body). -/
def filterM (df : DataFrame) (condition : Value → Value) :
    Except DFError DataFrame × DataFrame :=
  (df.filter condition, df)

/-- `sortBy` with the receiver state threaded explicitly: the body sorts a
copy (`[...this.data]`) and assigns nothing to `this`. -/
def sortByM (df : DataFrame) (names : List String) (ascending : Bool) :
    Except DFError DataFrame × DataFrame :=
  (df.sortBy names ascending, df)

/-- `groupBy` with the receiver state threaded explicitly (no assignment to
`this` in the body). -/
def groupByM (df : DataFrame) (names : List String) :
    Except DFError DataFrame × DataFrame :=
  (df.groupBy names, df)

/-- `renameColumns` with the receiver state threaded explicitly: the method
returns no value and reassigns `this.columns`, `this.data`, `this.dtypes`. -/
def renameColumnsM (df : DataFrame) (m : List (String × String)) :
    Unit × DataFrame :=
  ((), df.renameColumns m)

/-- `dropColumns` with the receiver state threaded explicitly. -/
def dropColumnsM (df : DataFrame) (cols : List String) : Unit × DataFrame :=
  ((), df.dropColumns cols)

end DataFrame

mutual

/-- Structural (deep) equality of JS values, as a Boolean test. -/
def Value.beq : Value → Value → Bool
  | .num a, .num b => a == b
  | .str a, .str b => a == b
  | .bool a, .bool b => a == b
  | .undef, .undef => true
  | .nan, .nan => true
  | .arr xs, .arr ys => Value.beqList xs ys
  | .obj xs, .obj ys => Value.beqFields xs ys
  | _, _ => false

/-- Element-wise structural equality of value lists. -/
def Value.beqList : List Value → List Value → Bool
  | [], [] => true
  | x :: xs, y :: ys => Value.beq x y && Value.beqList xs ys
  | _, _ => false

/-- Field-wise structural equality of object field lists. -/
def Value.beqFields : List (String × Value) → List (String × Value) → Bool
  | [], [] => true
  | (k1, v1) :: xs, (k2, v2) :: ys =>
    k1 == k2 && Value.beq v1 v2 && Value.beqFields xs ys
  | _, _ => false

end

/-- The three-row table of the repository's test suite (`ID`/`Name`/`Age`),
in the state the constructor produces for it. -/
def sampleDF : DataFrame :=
  ⟨["ID", "Name", "Age"],
   [.obj [("ID", .num 1), ("Name", .str "John"), ("Age", .num 25)],
    .obj [("ID", .num 2), ("Name", .str "Jane"), ("Age", .num 30)],
    .obj [("ID", .num 3), ("Name", .str "Sam"), ("Age", .num 28)]],
   [("ID", "number"), ("Name", "string"), ("Age", "number")]⟩

/-- The claim's notion of a row-major array of arrays. -/
def isArrayOfArrays : Value → Bool
  | .arr l => l.all Value.isArray
  | _ => false

/-- The claim's notion of an array of key-value records. -/
def isArrayOfRecords : Value → Bool
  | .arr l => l.all Value.isObj
  | _ => false

/-- C1 (code_bug evidence): on the three-row sample table, `getRow 3` — the
first index outside `[0, rowCount)` — does not fail with IndexOutOfRange but
returns the out-of-bounds read `undefined`, because the guard uses
`index > length` instead of `index >= length`; a negative index is not
rejected either. `getRow 4` does fail, as the test suite checks. -/
theorem getRow_boundary_eval :
    sampleDF.data.length = 3 ∧
    sampleDF.getRow 3 = .ok .undef ∧
    sampleDF.getRow (-1) = .ok .undef ∧
    sampleDF.getRow 4 = .error .indexOutOfRange :=
  ⟨rfl, rfl, rfl, rfl⟩

/-- C3 (counterexample): an array of plain numbers is neither an
array-of-arrays nor an array-of-records, yet the constructor succeeds on it
instead of failing with InvalidInputFormat — it takes the records branch,
which accepts any array. -/
theorem constructor_neither_shape_counterexample :
    isArrayOfArrays (.arr [.num 1]) = false ∧
    isArrayOfRecords (.arr [.num 1]) = false ∧
    (mkDataFrame (.arr [.num 1]) none).toOption.isSome = true :=
  ⟨rfl, rfl, rfl⟩

/-- C3 (amended): an `undefined` input fails with a TypeError at the very
first read `data[0]`, before any shape check; for every input, the
constructor fails with InvalidInputFormat exactly when the input is
defined, its element 0 is not an array, and the input itself is not an
array. Array-of-arrays and array-of-records inputs therefore never produce
this error, but neither do other arrays (such as an array of numbers). -/
theorem invalidInputFormat_iff (v : Value) (cols : Option (List String)) :
    mkDataFrame (.undef) cols = .error .typeError ∧
    (mkDataFrame v cols = .error .invalidInputFormat ↔
      v.isUndefined = false ∧ (index0 v).isArray = false ∧ v.isArray = false) := by
  refine ⟨rfl, ?_⟩
  by_cases h1 : (index0 v).isArray
  · simp only [mkDataFrame, h1, if_true]
    cases v <;> simp_all [Value.isArray, Value.isUndefined]
  · simp only [mkDataFrame, h1, Bool.false_eq_true, if_false]
    cases v <;> simp_all [Value.isArray, Value.isUndefined] <;>
      split <;> simp_all <;> split <;> simp_all

/-- C4 (counterexample): `tail 0` on the three-row sample table does not
return the last `min 0 3 = 0` rows: `slice(-0)` is `slice(0)`, so every row
comes back. -/
theorem tail_zero_counterexample :
    (sampleDF.tail 0).length ≠ min 0 sampleDF.data.length := by decide

/-- C4 (amended): `head n` returns exactly the first `min n rowCount` rows
in order; for `n ≥ 1`, `tail n` returns exactly the last `min n rowCount`
rows in order; `tail 0` degenerates to the whole row list. -/
theorem head_tail_clamped (df : DataFrame) (n : Nat) :
    df.head n = df.data.take n ∧
    (df.head n).length = min n df.data.length ∧
    (1 ≤ n → df.tail n = df.data.drop (df.data.length - n)) ∧
    (1 ≤ n → (df.tail n).length = min n df.data.length) ∧
    df.tail 0 = df.data := by
  have hhead : df.head n = df.data.take n := by
    simp only [DataFrame.head, DataFrame.jsSlice, DataFrame.jsSliceIdx]
    have h0 : ¬((0 : Int) < 0) := by omega
    have hn : ¬((n : Int) < 0) := by omega
    simp only [h0, hn, if_false, Int.toNat_zero, Int.toNat_natCast,
      Nat.zero_min, List.drop_zero]
    rcases Nat.le_total n df.data.length with h | h
    · rw [Nat.min_eq_left h]
    · rw [Nat.min_eq_right h, List.take_length,
        List.take_of_length_le h]
  have htail : 1 ≤ n → df.tail n = df.data.drop (df.data.length - n) := by
    intro hn1
    simp only [DataFrame.tail, DataFrame.jsSlice, DataFrame.jsSliceIdx]
    have hneg : (-(n : Int)) < 0 := by omega
    have : ((df.data.length : Int) + -(n : Int)).toNat = df.data.length - n := by
      omega
    simp only [hneg, if_true, this, List.take_length]
  refine ⟨hhead, ?_, htail, ?_, ?_⟩
  · rw [hhead, List.length_take]
  · intro hn1
    rw [htail hn1, List.length_drop]
    omega
  · simp only [DataFrame.tail, DataFrame.jsSlice, DataFrame.jsSliceIdx]
    have h0 : ¬(-((0 : Nat) : Int) < 0) := by omega
    simp only [h0, if_false, List.take_length]
    have : ((-((0 : Nat) : Int)).toNat) = 0 := by omega
    rw [this, Nat.zero_min, List.drop_zero]

/-- C4 (witness): the amended statement applied to the sample table with
`n = 2`. -/
theorem head_tail_clamped_witness :
    sampleDF.tail 2 = sampleDF.data.drop (sampleDF.data.length - 2) :=
  (head_tail_clamped sampleDF 2).2.2.1 (by decide)

/-- C8: `select`, `filter`, `sortBy` and `groupBy` — with the receiver
state threaded explicitly — leave the receiver (its columns, rows and
dtypes) exactly as it was: none of their bodies assigns to `this`. -/
theorem derivation_receiver_unchanged (df : DataFrame) (cols names : List String)
    (cond : Value → Value) (asc : Bool) :
    (df.selectM cols).2 = df ∧ (df.filterM cond).2 = df ∧
    (df.sortByM names asc).2 = df ∧ (df.groupByM names).2 = df :=
  ⟨rfl, rfl, rfl, rfl⟩

/-- C10: a zero-row table — built from an empty record sequence, or by
`filter` with an always-false predicate — has dtype "mixed" for every
column: the tag set of an empty column is empty, not a singleton. -/
theorem empty_table_dtypes_mixed :
    (∀ (cols : List String) (df1 : DataFrame),
      mkDataFrame (.arr []) (some cols) = .ok df1 →
      df1.dtypes = cols.map (fun c => (c, "mixed"))) ∧
    (∀ (df df2 : DataFrame),
      df.filter (fun _ => .bool false) = .ok df2 →
      df2.data = [] ∧ df2.dtypes = df.columns.map (fun c => (c, "mixed"))) := by
  have base : ∀ (cols : List String) (df1 : DataFrame),
      mkDataFrame (.arr []) (some cols) = .ok df1 →
      df1.data = [] ∧ df1.dtypes = cols.map (fun c => (c, "mixed")) := by
    intro cols df1 h
    have heq : mkDataFrame (.arr []) (some cols) =
        .ok ⟨cols, [], cols.map (fun c => (c, "mixed"))⟩ := rfl
    rw [heq] at h
    injection h with h
    rw [← h]
    exact ⟨rfl, rfl⟩
  refine ⟨fun cols df1 h => (base cols df1 h).2, ?_⟩
  intro df df2 h
  have hflt : df.data.filter (fun r => isTruthy ((fun _ => Value.bool false) r)) = [] := by
    simp [isTruthy]
  simp only [DataFrame.filter] at h
  rw [hflt] at h
  exact base df.columns df2 h

/-- C10 (witness): the statement applied to a one-column empty table and to
an always-false filter of the sample table. -/
theorem empty_table_dtypes_mixed_witness :
    (⟨["A"], [], [("A", "mixed")]⟩ : DataFrame).dtypes =
      ["A"].map (fun c => (c, "mixed")) :=
  empty_table_dtypes_mixed.1 ["A"] ⟨["A"], [], [("A", "mixed")]⟩ rfl

/-- The structural invariant of a well-formed table (the spec's data-model
invariant): every row is a record whose keys are all listed in `columns`. -/
def wellKeyed (df : DataFrame) : Bool :=
  df.data.all (fun r =>
    match r with
    | .obj fs => fs.all (fun p => df.columns.contains p.1)
    | _ => false)

/-- Looking up a key that none of the fields carries yields nothing. -/
theorem lookup_none_of_keys_subset (fs : List (String × Value)) (cols : List String)
    (name : String) (hall : fs.all (fun p => cols.contains p.1) = true)
    (hn : cols.contains name = false) : fs.lookup name = none := by
  induction fs with
  | nil => rfl
  | cons p rest ih =>
    simp only [List.all_cons, Bool.and_eq_true] at hall
    obtain ⟨hp, hrest⟩ := hall
    have hne : (name == p.1) = false := by
      rw [beq_eq_false_iff_ne]
      intro heq
      rw [heq, hp] at hn
      exact absurd hn (by simp)
    obtain ⟨k, v⟩ := p
    have hne2 : (name == k) = false := hne
    rw [List.lookup_cons, hne2]
    exact ih hrest

/-- Reading an absent key from every record of a key-disciplined row list
gives a run of `undefined`s. -/
theorem map_rowGet_absent (cols : List String) (name : String) (data : List Value)
    (hw : data.all (fun r =>
      match r with
      | .obj fs => fs.all (fun p => cols.contains p.1)
      | _ => false) = true)
    (hn : cols.contains name = false) :
    data.map (fun r => rowGet r name) = List.replicate data.length .undef := by
  induction data with
  | nil => rfl
  | cons r rest ih =>
    simp only [List.all_cons, Bool.and_eq_true] at hw
    obtain ⟨hr, hrest⟩ := hw
    rw [List.map_cons, List.length_cons, List.replicate_succ, ih hrest]
    have hget : rowGet r name = .undef := by
      cases r with
      | obj fs =>
        rw [rowGet, lookup_none_of_keys_subset fs cols name hr hn]
        rfl
      | num q => rfl
      | str s => rfl
      | bool b => rfl
      | undef => rfl
      | nan => rfl
      | arr l => simp at hr
    rw [hget]

/-- A well-formed table reads an absent column as `rowCount` copies of
`undefined`. -/
theorem getColumn_absent (df : DataFrame) (name : String)
    (hw : wellKeyed df = true) (hn : df.columns.contains name = false) :
    df.getColumn name = List.replicate df.data.length .undef :=
  map_rowGet_absent df.columns name df.data hw hn

/-- Folding JS addition from NaN over `undefined`s stays NaN. -/
theorem foldl_jsAdd_nan_undef (n : Nat) :
    (List.replicate n Value.undef).foldl jsAdd .nan = .nan := by
  induction n with
  | zero => rfl
  | succ k ih =>
    rw [List.replicate_succ, List.foldl_cons]
    exact ih

/-- The squared-deviation accumulation of `std` from NaN over `undefined`s
stays NaN. -/
theorem foldl_stdstep_nan_undef (n : Nat) :
    (List.replicate n Value.undef).foldl
      (fun acc val => jsAdd acc (jsPow2 (jsSub val .nan))) .nan = .nan := by
  induction n with
  | zero => rfl
  | succ k ih =>
    rw [List.replicate_succ, List.foldl_cons]
    exact ih

/-- Sorting a run of `undefined`s is the identity. -/
theorem stableSort_replicate_undef (n : Nat) :
    stableSort DataFrame.medianLe (List.replicate n .undef) =
      List.replicate n .undef := by
  induction n with
  | zero => rfl
  | succ k ih =>
    rw [List.replicate_succ, stableSort, ih]
    cases k with
    | zero => rfl
    | succ m => rw [List.replicate_succ]; rfl

/-- Reading any integer index of a run of `undefined`s gives `undefined`
(in range or out). -/
theorem listGetInt_replicate_undef (n : Nat) (i : Int) :
    listGetInt (List.replicate n .undef) i = .undef := by
  unfold listGetInt
  split
  · have : ∀ (m j : Nat), (List.replicate m Value.undef).getD j .undef = .undef := by
      intro m
      induction m with
      | zero => intro j; rfl
      | succ a ihm =>
        intro j
        cases j with
        | zero => rfl
        | succ b => rw [List.replicate_succ]; exact ihm b
    exact this n i.toNat
  · rfl

/-- Tallying a run of `undefined`s never leaves the singleton modes list
once it is reached. -/
theorem mode_fold_undef (m : Nat) : ∀ (st : DataFrame.ModeState),
    st.freq "undefined" = st.maxFreq → 1 ≤ st.maxFreq → st.modes = [.undef] →
    ((List.replicate m Value.undef).foldl DataFrame.modeStep st).modes = [.undef] := by
  induction m with
  | zero => intro st _ _ h3; simpa using h3
  | succ k ih =>
    intro st h1 h2 h3
    rw [List.replicate_succ, List.foldl_cons]
    have hkey : jsToString .undef = "undefined" := rfl
    have hstep : DataFrame.modeStep st .undef =
        ⟨fun k2 => if k2 = "undefined" then st.maxFreq + 1 else st.freq k2,
         st.maxFreq + 1, [.undef]⟩ := by
      simp only [DataFrame.modeStep, hkey, h1]
      have hgt : st.maxFreq + 1 > st.maxFreq := Nat.lt_succ_self _
      rw [if_pos hgt]
    rw [hstep]
    exact ih _ (by simp) (Nat.le_add_left 1 st.maxFreq) rfl

/-- C9: on a well-formed table, a column name absent from `columns` makes
`get` fail with ColumnNotFound, while the check-free `#getColumn` used by
`aggregate`, `mean`, `median`, `mode` and `std` silently yields `rowCount`
copies of `undefined`, on which the reducer or statistic is then evaluated
(NaN for `mean` and `std`; `undefined` or NaN for `median` by parity;
`[undefined]` for `mode` on a nonempty table). -/
theorem absent_column_stats (df : DataFrame) (name : String) (f : List Value → Value)
    (hw : wellKeyed df = true) (hn : df.columns.contains name = false) :
    df.get name = .error .columnNotFound ∧
    df.getColumn name = List.replicate df.data.length .undef ∧
    df.aggregate [(name, .func f)] =
      .ok [(name, f (List.replicate df.data.length .undef))] ∧
    df.mean name = .nan ∧
    df.median name = (if df.data.length % 2 = 1 then Value.undef else Value.nan) ∧
    df.mode name = (if df.data.length = 0 then [] else [Value.undef]) ∧
    df.std name = .nan := by
  have hcol := getColumn_absent df name hw hn
  have hget : df.get name = .error .columnNotFound := by
    unfold DataFrame.get
    rw [hn]
    rfl
  have hmean : df.mean name = .nan := by
    unfold DataFrame.mean
    dsimp only
    rw [hcol]
    generalize df.data.length = n
    cases n with
    | zero => rfl
    | succ k =>
      rw [List.replicate_succ, List.foldl_cons]
      rw [show jsAdd (.num 0) .undef = .nan from rfl, foldl_jsAdd_nan_undef]
      rfl
  refine ⟨hget, hcol, ?_, hmean, ?_, ?_, ?_⟩
  · unfold DataFrame.aggregate
    rw [hcol]
    rfl
  · unfold DataFrame.median
    dsimp only
    rw [hcol, stableSort_replicate_undef, List.length_replicate]
    rcases Nat.even_or_odd df.data.length with he | ho
    · have h0 : df.data.length % 2 = 0 := Nat.even_iff.mp he
      have h1 : ¬(df.data.length % 2 = 1) := by omega
      rw [if_pos h0, if_neg h1, listGetInt_replicate_undef, listGetInt_replicate_undef]
      rfl
    · have h1 : df.data.length % 2 = 1 := Nat.odd_iff.mp ho
      have h0 : ¬(df.data.length % 2 = 0) := by omega
      rw [if_neg h0, if_pos h1, listGetInt_replicate_undef]
  · unfold DataFrame.mode
    rw [hcol]
    generalize df.data.length = n
    cases n with
    | zero => rfl
    | succ k =>
      rw [List.replicate_succ, List.foldl_cons, if_neg (Nat.succ_ne_zero k)]
      apply mode_fold_undef
      · rfl
      · decide
      · rfl
  · unfold DataFrame.std
    dsimp only
    rw [hcol, hmean]
    generalize df.data.length = n
    cases n with
    | zero => rfl
    | succ k =>
      rw [List.replicate_succ, List.foldl_cons]
      rw [show jsAdd (.num 0) (jsPow2 (jsSub .undef .nan)) = .nan from rfl,
        foldl_stdstep_nan_undef]
      rfl

/-- C9 (witness): the statement applied to the sample table and the absent
column "Salary". -/
theorem absent_column_stats_witness :
    wellKeyed sampleDF = true ∧ sampleDF.columns.contains "Salary" = false ∧
    sampleDF.get "Salary" = .error .columnNotFound ∧ sampleDF.mean "Salary" = .nan :=
  ⟨by decide, by decide,
   (absent_column_stats sampleDF "Salary" (fun _ => .num 0) (by decide) (by decide)).1,
   (absent_column_stats sampleDF "Salary" (fun _ => .num 0) (by decide) (by decide)).2.2.2.1⟩

/-- Membership after folding the first-occurrence set builder. -/
theorem mem_setDedup_aux (l : List String) : ∀ (acc : List String) (x : String),
    (x ∈ l.foldl (fun acc s => if acc.contains s then acc else acc ++ [s]) acc) ↔
      x ∈ acc ∨ x ∈ l := by
  induction l with
  | nil => intro acc x; simp
  | cons a rest ih =>
    intro acc x
    rw [List.foldl_cons]
    by_cases h : acc.contains a
    · rw [if_pos h, ih]
      constructor
      · rintro (hx | hx)
        · exact Or.inl hx
        · exact Or.inr (List.mem_cons_of_mem a hx)
      · rintro (hx | hx)
        · exact Or.inl hx
        · rcases List.mem_cons.mp hx with h1 | h1
          · subst h1; exact Or.inl (by simpa using h)
          · exact Or.inr h1
    · rw [if_neg h, ih]
      simp only [List.mem_append, List.mem_cons, List.mem_singleton]
      tauto
/-- Membership in the first-occurrence deduplication is list membership. -/
theorem mem_setDedup (l : List String) (x : String) : x ∈ setDedup l ↔ x ∈ l := by
  unfold setDedup
  rw [mem_setDedup_aux]
  simp

/-- Folding equal elements onto their own singleton set changes nothing. -/
theorem setDedup_all_eq_aux (t : String) (l : List String) (h : ∀ x ∈ l, x = t) :
    l.foldl (fun acc s => if acc.contains s then acc else acc ++ [s]) [t] = [t] := by
  induction l with
  | nil => rfl
  | cons a rest ih =>
    rw [List.foldl_cons]
    have ha : a = t := h a (List.mem_cons_self a rest)
    rw [ha, if_pos (by simp)]
    exact ih (fun x hx => h x (List.mem_cons_of_mem a hx))

/-- A nonempty constant list deduplicates to its one element. -/
theorem setDedup_all_eq (l : List String) (t : String) (hne : l ≠ [])
    (h : ∀ x ∈ l, x = t) : setDedup l = [t] := by
  cases l with
  | nil => exact absurd rfl hne
  | cons a rest =>
    unfold setDedup
    rw [List.foldl_cons]
    have ha : a = t := h a (List.mem_cons_self a rest)
    rw [if_neg (by simp), List.nil_append, ha]
    exact setDedup_all_eq_aux t rest (fun x hx => h x (List.mem_cons_of_mem a hx))

/-- Looking a listed column up in the freshly computed dtypes object gives
its detected type. -/
theorem lookup_detectColumnTypes (cols : List String) (data : List Value)
    (n : String) (hmem : n ∈ cols) :
    (detectColumnTypes cols data).lookup n = some (detectColumnType data n) := by
  induction cols with
  | nil => cases hmem
  | cons c rest ih =>
    unfold detectColumnTypes
    rw [List.map_cons, List.lookup_cons]
    by_cases h : n = c
    · subst h
      rw [show (n == n) = true from beq_self_eq_true n]
    · rw [show (n == c) = false from beq_eq_false_iff_ne.mpr h]
      have hmem2 : n ∈ rest := by
        rcases List.mem_cons.mp hmem with h1 | h1
        · exact absurd h1 h
        · exact h1
      exact ih hmem2

/-- The claim's dtype relation at one column name: a runtime tag shared by
every value of a nonempty column is the stored dtype; two values with
different tags force the stored dtype "mixed". -/
def dtypesSpecAt (df : DataFrame) (n : String) : Prop :=
  (∀ t : String, df.data ≠ [] → (∀ r ∈ df.data, typeOf (rowGet r n) = t) →
      df.dtypes.lookup n = some t) ∧
  ((∃ r1 ∈ df.data, ∃ r2 ∈ df.data, typeOf (rowGet r1 n) ≠ typeOf (rowGet r2 n)) →
      df.dtypes.lookup n = some "mixed")

/-- The claim's dtype invariant over all columns of a table. -/
def dtypesConsistent (df : DataFrame) : Prop :=
  ∀ n ∈ df.columns, dtypesSpecAt df n

/-- A table whose dtypes field is freshly computed satisfies the dtype
invariant. -/
theorem detect_consistent (cols : List String) (data : List Value) :
    dtypesConsistent ⟨cols, data, detectColumnTypes cols data⟩ := by
  intro n hmem
  constructor
  · intro t hne hall
    show (detectColumnTypes cols data).lookup n = some t
    rw [lookup_detectColumnTypes cols data n hmem]
    congr 1
    unfold detectColumnType
    dsimp only
    have hmap : ∀ x ∈ (data.map (fun r => rowGet r n)).map typeOf, x = t := by
      intro x hx
      rcases List.mem_map.mp hx with ⟨v, hv, hxeq⟩
      rcases List.mem_map.mp hv with ⟨r, hr, hveq⟩
      rw [← hxeq, ← hveq]
      exact hall r hr
    have hne2 : (data.map (fun r => rowGet r n)).map typeOf ≠ [] := by
      simp [hne]
    rw [setDedup_all_eq _ t hne2 hmap]
  · rintro ⟨r1, h1, r2, h2, hne12⟩
    show (detectColumnTypes cols data).lookup n = some "mixed"
    rw [lookup_detectColumnTypes cols data n hmem]
    congr 1
    unfold detectColumnType
    dsimp only
    have m1 : typeOf (rowGet r1 n) ∈ (data.map (fun r => rowGet r n)).map typeOf :=
      List.mem_map_of_mem _ (List.mem_map_of_mem _ h1)
    have m2 : typeOf (rowGet r2 n) ∈ (data.map (fun r => rowGet r n)).map typeOf :=
      List.mem_map_of_mem _ (List.mem_map_of_mem _ h2)
    rcases hsd : setDedup ((data.map (fun r => rowGet r n)).map typeOf) with _ | ⟨t, rest⟩
    · rfl
    · cases rest with
      | nil =>
        exfalso
        have e1 : typeOf (rowGet r1 n) = t := by
          have hm := (mem_setDedup _ _).mpr m1
          rw [hsd] at hm
          simpa using hm
        have e2 : typeOf (rowGet r2 n) = t := by
          have hm := (mem_setDedup _ _).mpr m2
          rw [hsd] at hm
          simpa using hm
        exact hne12 (e1.trans e2.symm)
      | cons t2 rest2 => rfl

/-- C7: dtypes is never stale: right after construction and right after any
renameColumns or dropColumns call, each listed column's stored dtype is the
tag shared by all of its values (column nonempty), and "mixed" whenever two
of its values have different tags. -/
theorem dtypes_never_stale :
    (∀ (d : Value) (c : Option (List String)) (df : DataFrame),
      mkDataFrame d c = .ok df → dtypesConsistent df) ∧
    (∀ (df : DataFrame) (m : List (String × String)),
      dtypesConsistent (df.renameColumns m)) ∧
    (∀ (df : DataFrame) (cs : List String),
      dtypesConsistent (df.dropColumns cs)) := by
  refine ⟨?_, ?_, ?_⟩
  · intro d c df h
    unfold mkDataFrame at h
    split at h
    · cases h
    · split at h
      · split at h
        · injection h with h
          rw [← h]
          exact detect_consistent _ _
        · cases h
      · split at h
        · split at h
          · split at h
            · injection h with h
              rw [← h]
              exact detect_consistent _ _
            · split at h
              · injection h with h
                rw [← h]
                exact detect_consistent _ _
              · cases h
          · cases h
        · cases h
  · intro df m
    exact detect_consistent _ _
  · intro df cs
    exact detect_consistent _ _

/-- C7 (witness): after renaming `ID` to `X` on the sample table, the
recomputed dtypes still map the (renamed) column to its shared tag. -/
theorem dtypes_never_stale_witness :
    (sampleDF.renameColumns [("ID", "X")]).dtypes.lookup "X" = some "number" := by
  have hc := dtypes_never_stale.2.1 sampleDF [("ID", "X")]
  have hx := hc "X" (by decide)
  exact hx.1 "number" (List.cons_ne_nil _ _) (by decide)

/-- The string keys under which `mode` pools a column's values. -/
def keyList (vs : List Value) : List String := vs.map jsToString

/-- Pooled occurrence count of a string class in a column. -/
def classCount (vs : List Value) (k : String) : Nat := (keyList vs).count k

/-- The maximum pooled occurrence count over the column's classes. -/
def maxClassCount (vs : List Value) : Nat :=
  (keyList vs).toFinset.sup (fun k => (keyList vs).count k)

/-- The mode list the amended claim describes: walking the column once, a
value is emitted at exactly the occurrence where its string class's running
count reaches the (final) maximum pooled count — so each maximal class
contributes its max-reaching occurrence, in first-reaching order. -/
def specModes (vs : List Value) : List Value :=
  (List.range vs.length).filterMap (fun i =>
    if classCount (vs.take (i + 1)) (jsToString (vs.getD i .undef)) = maxClassCount vs
    then some (vs.getD i .undef) else none)

/-- Appending one element bumps the maximum pooled count to the larger of
the old maximum and the appended element's new class count. -/
theorem sup_count_append (L : List String) (k : String) :
    (L ++ [k]).toFinset.sup (fun x => (L ++ [k]).count x) =
      max (L.toFinset.sup (fun x => L.count x)) (L.count k + 1) := by
  apply le_antisymm
  · apply Finset.sup_le
    intro b hb
    rw [List.mem_toFinset, List.mem_append] at hb
    by_cases hbk : b = k
    · subst hbk
      rw [List.count_append, List.count_singleton', if_pos rfl]
      exact le_max_of_le_right (le_refl _)
    · have hbL : b ∈ L := by
        rcases hb with h | h
        · exact h
        · exact absurd (List.mem_singleton.mp h) hbk
      rw [List.count_append, List.count_singleton', if_neg (fun he => hbk he.symm),
        Nat.add_zero]
      exact le_max_of_le_left
        (@Finset.le_sup _ _ _ _ L.toFinset (fun x => L.count x) b
          (List.mem_toFinset.mpr hbL))
  · apply max_le
    · apply Finset.sup_le
      intro b hb
      have hsub : (L.toFinset : Finset String) ⊆ (L ++ [k]).toFinset := by
        intro x hx
        rw [List.mem_toFinset] at hx ⊢
        exact List.mem_append.mpr (Or.inl hx)
      calc L.count b ≤ (L ++ [k]).count b := by
            rw [List.count_append]; omega
        _ ≤ _ := @Finset.le_sup _ _ _ _ (L ++ [k]).toFinset
            (fun x => (L ++ [k]).count x) b (hsub hb)
    · have hk : k ∈ (L ++ [k]).toFinset := by
        rw [List.mem_toFinset, List.mem_append]
        exact Or.inr (List.mem_singleton.mpr rfl)
      have h2 : (L ++ [k]).count k ≤
          (L ++ [k]).toFinset.sup (fun x => (L ++ [k]).count x) :=
        @Finset.le_sup _ _ _ _ (L ++ [k]).toFinset
          (fun x => (L ++ [k]).count x) k hk
      rwa [List.count_append, List.count_singleton', if_pos rfl] at h2
/-- `maxClassCount` under appending one value. -/
theorem maxClassCount_append (vs : List Value) (v : Value) :
    maxClassCount (vs ++ [v]) =
      max (maxClassCount vs) (classCount vs (jsToString v) + 1) := by
  unfold maxClassCount classCount keyList
  rw [List.map_append, List.map_cons, List.map_nil]
  exact sup_count_append (vs.map jsToString) (jsToString v)

/-- A running class count never exceeds the whole-column class count. -/
theorem classCount_take_le (vs : List Value) (j : Nat) (k : String) :
    classCount (vs.take j) k ≤ classCount vs k := by
  unfold classCount keyList
  rw [List.map_take]
  exact List.Sublist.count_le (List.take_sublist j (vs.map jsToString)) k

/-- A class that occurs in the column counts at most the maximum. -/
theorem classCount_le_max (vs : List Value) (k : String) (hk : k ∈ keyList vs) :
    classCount vs k ≤ maxClassCount vs := by
  unfold maxClassCount
  exact Finset.le_sup (List.mem_toFinset.mpr hk)

/-- Class count of the appended element's class, after the append. -/
theorem classCount_append_self (vs : List Value) (v : Value) :
    classCount (vs ++ [v]) (jsToString v) = classCount vs (jsToString v) + 1 := by
  unfold classCount keyList
  rw [List.map_append, List.map_cons, List.map_nil, List.count_append,
    List.count_singleton', if_pos rfl]

/-- Class count of any key, after the append. -/
theorem classCount_append (vs : List Value) (v : Value) (k : String) :
    classCount (vs ++ [v]) k =
      classCount vs k + (if jsToString v = k then 1 else 0) := by
  unfold classCount keyList
  rw [List.map_append, List.map_cons, List.map_nil, List.count_append,
    List.count_singleton']

/-- How the amended mode list grows when one value is appended: a strictly
new maximum restarts it at that value, a tie appends the value, anything
lower leaves it unchanged. -/
theorem specModes_append (vs : List Value) (v : Value) :
    specModes (vs ++ [v]) =
      (if classCount vs (jsToString v) + 1 > maxClassCount vs then [v]
       else if classCount vs (jsToString v) + 1 = maxClassCount vs then
         specModes vs ++ [v]
       else specModes vs) := by
  set c := classCount vs (jsToString v) + 1 with hc
  have hlen : (vs ++ [v]).length = vs.length + 1 := by
    rw [List.length_append, List.length_singleton]
  have htail : ∀ i, i < vs.length →
      ((vs ++ [v]).getD i .undef = vs.getD i .undef ∧
       (vs ++ [v]).take (i + 1) = vs.take (i + 1)) := by
    intro i hi
    exact ⟨List.getD_append vs [v] .undef i hi,
      List.take_append_of_le_length (by omega)⟩
  have hlast : (vs ++ [v]).getD vs.length .undef = v := by
    rw [List.getD_eq_getElem (vs ++ [v]) .undef (by rw [hlen]; omega)]
    rw [List.getElem_append_right (le_refl vs.length)]
    simp
  have hlastTake : (vs ++ [v]).take (vs.length + 1) = vs ++ [v] := by
    apply List.take_of_length_le
    rw [hlen]
  unfold specModes
  rw [hlen, List.range_succ, List.filterMap_append]
  rcases Nat.lt_trichotomy (maxClassCount vs) c with hgt | heq | hlt
  · -- strictly new maximum: c > old
    rw [if_pos hgt]
    have hmax : maxClassCount (vs ++ [v]) = c := by
      rw [maxClassCount_append, ← hc]
      omega
    have hnone : ∀ i ∈ List.range vs.length,
        (if classCount ((vs ++ [v]).take (i + 1))
              (jsToString ((vs ++ [v]).getD i .undef)) = maxClassCount (vs ++ [v])
         then some ((vs ++ [v]).getD i .undef) else none) = none := by
      intro i hi
      have hilt : i < vs.length := List.mem_range.mp hi
      obtain ⟨hg, ht⟩ := htail i hilt
      rw [hg, ht, hmax]
      apply if_neg
      intro hcond
      have hkey : jsToString (vs.getD i .undef) ∈ keyList vs := by
        unfold keyList
        rw [List.getD_eq_getElem vs .undef hilt]
        exact List.mem_map_of_mem _ (List.getElem_mem hilt)
      have h1 := classCount_take_le vs (i + 1) (jsToString (vs.getD i .undef))
      have h2 := classCount_le_max vs _ hkey
      omega
    rw [List.filterMap_eq_nil.mpr hnone, List.nil_append]
    rw [List.filterMap_cons, hlast, hlastTake, classCount_append_self, ← hc,
      hmax, if_pos rfl, List.filterMap_nil]
  · -- tie with the old maximum
    rw [← heq, if_neg (by omega), if_pos rfl]
    have hmax : maxClassCount (vs ++ [v]) = c := by
      rw [maxClassCount_append, ← hc, ← heq]
      omega
    have hcongr : ∀ i ∈ List.range vs.length,
        (if classCount ((vs ++ [v]).take (i + 1))
              (jsToString ((vs ++ [v]).getD i .undef)) = maxClassCount (vs ++ [v])
         then some ((vs ++ [v]).getD i .undef) else none) =
        (if classCount (vs.take (i + 1)) (jsToString (vs.getD i .undef)) =
              maxClassCount vs
         then some (vs.getD i .undef) else none) := by
      intro i hi
      have hilt : i < vs.length := List.mem_range.mp hi
      obtain ⟨hg, ht⟩ := htail i hilt
      rw [hg, ht, hmax, ← heq]
    rw [List.filterMap_congr hcongr]
    rw [List.filterMap_cons, hlast, hlastTake, classCount_append_self, ← hc,
      hmax, if_pos rfl, List.filterMap_nil]
  · -- below the old maximum
    rw [if_neg (by omega), if_neg (by omega)]
    have hmax : maxClassCount (vs ++ [v]) = maxClassCount vs := by
      rw [maxClassCount_append, ← hc]
      omega
    have hcongr : ∀ i ∈ List.range vs.length,
        (if classCount ((vs ++ [v]).take (i + 1))
              (jsToString ((vs ++ [v]).getD i .undef)) = maxClassCount (vs ++ [v])
         then some ((vs ++ [v]).getD i .undef) else none) =
        (if classCount (vs.take (i + 1)) (jsToString (vs.getD i .undef)) =
              maxClassCount vs
         then some (vs.getD i .undef) else none) := by
      intro i hi
      have hilt : i < vs.length := List.mem_range.mp hi
      obtain ⟨hg, ht⟩ := htail i hilt
      rw [hg, ht, hmax]
    rw [List.filterMap_congr hcongr]
    rw [List.filterMap_cons, hlast, hlastTake, classCount_append_self, ← hc,
      hmax, if_neg (by omega), List.filterMap_nil, List.append_nil]

/-- The `mode` loop state after any prefix: frequencies are the pooled
class counts, the running maximum is the maximum pooled count, and the
modes list is the amended-claim list. -/
theorem mode_fold_spec (vs : List Value) :
    vs.foldl DataFrame.modeStep ⟨fun _ => 0, 0, []⟩ =
      ⟨fun k => classCount vs k, maxClassCount vs, specModes vs⟩ := by
  induction vs using List.reverseRecOn with
  | nil =>
    simp only [List.foldl_nil, DataFrame.ModeState.mk.injEq]
    refine ⟨funext (fun k => rfl), rfl, rfl⟩
  | append_singleton vs v ih =>
    rw [List.foldl_append, ih, List.foldl_cons, List.foldl_nil]
    have hfreq : (fun k2 => if k2 = jsToString v then classCount vs (jsToString v) + 1
        else classCount vs k2) = fun k => classCount (vs ++ [v]) k := by
      funext k2
      rw [classCount_append]
      by_cases h : k2 = jsToString v
      · rw [if_pos h, h, if_pos rfl]
      · rw [if_neg h, if_neg (fun he => h he.symm), Nat.add_zero]
    rcases Nat.lt_trichotomy (maxClassCount vs) (classCount vs (jsToString v) + 1)
      with hgt | heq | hlt
    · have hmods : specModes (vs ++ [v]) = [v] := by
        rw [specModes_append, if_pos hgt]
      have hmax : maxClassCount (vs ++ [v]) = classCount vs (jsToString v) + 1 := by
        rw [maxClassCount_append]
        omega
      rw [hmods, hmax]
      unfold DataFrame.modeStep
      dsimp only
      rw [if_pos hgt]
      simp only [DataFrame.ModeState.mk.injEq]
      exact ⟨hfreq, trivial, trivial⟩
    · have hmods : specModes (vs ++ [v]) = specModes vs ++ [v] := by
        rw [specModes_append, if_neg (by omega), if_pos (by omega)]
      have hmax : maxClassCount (vs ++ [v]) = maxClassCount vs := by
        rw [maxClassCount_append]
        omega
      rw [hmods, hmax]
      unfold DataFrame.modeStep
      dsimp only
      rw [if_neg (by omega), if_pos (by omega)]
      simp only [DataFrame.ModeState.mk.injEq]
      exact ⟨hfreq, trivial, trivial⟩
    · have hmods : specModes (vs ++ [v]) = specModes vs := by
        rw [specModes_append, if_neg (by omega), if_neg (by omega)]
      have hmax : maxClassCount (vs ++ [v]) = maxClassCount vs := by
        rw [maxClassCount_append]
        omega
      rw [hmods, hmax]
      unfold DataFrame.modeStep
      dsimp only
      rw [if_neg (by omega), if_neg (by omega)]
      simp only [DataFrame.ModeState.mk.injEq]
      exact ⟨hfreq, trivial, trivial⟩

/-- C6 (amended): `mode` pools the column's values by their JS string
coercion (the frequency object's keys), and returns, for each pooled class
whose total count equals the maximum pooled count, the value at the
occurrence where that class reached the maximum — in first-reaching order.
When distinct values have distinct string coercions this is the original
claim; values sharing a coercion (such as the number 1 and the string "1")
are pooled into one class. -/
theorem mode_eq_specModes (df : DataFrame) (name : String) :
    df.mode name = specModes (df.getColumn name) := by
  unfold DataFrame.mode
  rw [mode_fold_spec]

/-- A two-row table whose column holds the number 1 and the string "1". -/
def modeCollisionDF : DataFrame :=
  ⟨["A"], [.obj [("A", .num 1)], .obj [("A", .str "1")]], [("A", "mixed")]⟩

/-- Boolean membership by structural value equality. -/
def memV (v : Value) (vs : List Value) : Bool := vs.any (fun w => Value.beq w v)

/-- Occurrence count of a value in a column, by structural equality. -/
def occCount (vs : List Value) (v : Value) : Nat :=
  (vs.filter (fun w => Value.beq w v)).length

/-- The maximum occurrence count over the column's distinct values. -/
def maxOcc (vs : List Value) : Nat := (vs.map (occCount vs)).foldr max 0

/-- C6 (counterexample): in a column holding the number 1 and the string
"1", both distinct values have occurrence count 1 = maximum, yet `mode`
returns only the string — the frequency object keys both values as "1",
so the claim's "all tied values included" fails. -/
theorem mode_string_collision_counterexample :
    ¬ (∀ v : Value, memV v (modeCollisionDF.getColumn "A") = true →
        occCount (modeCollisionDF.getColumn "A") v =
          maxOcc (modeCollisionDF.getColumn "A") →
        memV v (modeCollisionDF.mode "A") = true) := by
  intro h
  have h1 := h (.num 1) rfl rfl
  exact absurd h1 (by decide)

/-- Appending one key to the set builder: already-seen keys change nothing,
new keys go to the back. -/
theorem setDedup_append (L : List String) (k : String) :
    setDedup (L ++ [k]) =
      (if k ∈ L then setDedup L else setDedup L ++ [k]) := by
  unfold setDedup
  rw [List.foldl_append, List.foldl_cons, List.foldl_nil]
  by_cases h : k ∈ L
  · rw [if_pos h, if_pos]
    rw [List.elem_iff, mem_setDedup_aux]
    simp [h]
  · rw [if_neg h, if_neg]
    rw [List.elem_iff, mem_setDedup_aux]
    simp [h]

/-- The set builder never repeats a key. -/
theorem setDedup_nodup_aux (L : List String) : ∀ (acc : List String), acc.Nodup →
    (L.foldl (fun acc s => if acc.contains s then acc else acc ++ [s]) acc).Nodup := by
  induction L with
  | nil => intro acc h; exact h
  | cons a rest ih =>
    intro acc hacc
    rw [List.foldl_cons]
    by_cases h : acc.contains a
    · rw [if_pos h]
      exact ih acc hacc
    · rw [if_neg h]
      apply ih
      rw [List.nodup_append]
      refine ⟨hacc, List.nodup_singleton a, ?_⟩
      intro x hx hxa
      rw [List.mem_singleton] at hxa
      subst hxa
      rw [List.elem_iff] at h
      exact h hx

/-- `setDedup` output has no duplicates. -/
theorem setDedup_nodup (L : List String) : (setDedup L).Nodup :=
  setDedup_nodup_aux L [] List.nodup_nil

/-- Pushing a row for a key that every entry misses appends a fresh
singleton bucket. -/
theorem addToGroups_not_mem (gs : List (String × List Value)) (k : String) (r : Value)
    (h : ∀ g ∈ gs, g.1 ≠ k) :
    DataFrame.addToGroups gs k r = gs ++ [(k, [r])] := by
  induction gs with
  | nil => rfl
  | cons g rest ih =>
    obtain ⟨k', rs⟩ := g
    have hne : k' ≠ k := h (k', rs) (List.mem_cons_self _ _)
    simp only [DataFrame.addToGroups, if_neg hne, List.cons_append]
    rw [ih (fun g hg => h g (List.mem_cons_of_mem _ hg))]

/-- Pushing a row for a key present in a duplicate-free keyed map appends
the row to exactly that key's bucket. -/
theorem addToGroups_map (ks : List String) (f : String → List Value) (k0 : String)
    (r : Value) (hnd : ks.Nodup) (hmem : k0 ∈ ks) :
    DataFrame.addToGroups (ks.map (fun k => (k, f k))) k0 r =
      ks.map (fun k => (k, if k = k0 then f k ++ [r] else f k)) := by
  induction ks with
  | nil => cases hmem
  | cons k ks' ih =>
    rw [List.map_cons, List.map_cons]
    rw [List.nodup_cons] at hnd
    obtain ⟨hknot, hnd'⟩ := hnd
    by_cases hk : k = k0
    · subst hk
      simp only [DataFrame.addToGroups, eq_self_iff_true, if_true]
      congr 1
      apply List.map_congr_left
      intro x hx
      have hxk : ¬(x = k) := fun he => hknot (he ▸ hx)
      rw [if_neg hxk]
    · simp only [DataFrame.addToGroups, if_neg hk]
      have hmem' : k0 ∈ ks' := by
        rcases List.mem_cons.mp hmem with h | h
        · exact absurd h.symm hk
        · exact h
      rw [ih hnd' hmem']

/-- The `groupBy` loop builds exactly the buckets the amended claim
describes: the distinct serialized keys in first-seen order, each mapped to
the order-preserving sub-list of the rows carrying that key. -/
theorem groupBuckets_spec (names : List String) (data : List Value) :
    DataFrame.groupBuckets names data =
      (setDedup (data.map (DataFrame.groupKey names))).map
        (fun k => (k, data.filter (fun r => DataFrame.groupKey names r == k))) := by
  induction data using List.reverseRecOn with
  | nil => rfl
  | append_singleton data r ih =>
    unfold DataFrame.groupBuckets
    rw [List.foldl_append, List.foldl_cons, List.foldl_nil]
    unfold DataFrame.groupBuckets at ih
    rw [ih, List.map_append, List.map_cons, List.map_nil, setDedup_append]
    by_cases hmem : DataFrame.groupKey names r ∈ data.map (DataFrame.groupKey names)
    · rw [if_pos hmem]
      have hmem2 : DataFrame.groupKey names r ∈
          setDedup (data.map (DataFrame.groupKey names)) :=
        (mem_setDedup _ _).mpr hmem
      rw [addToGroups_map _ _ _ _ (setDedup_nodup _) hmem2]
      apply List.map_congr_left
      intro k hk
      rw [List.filter_append]
      by_cases hkk : k = DataFrame.groupKey names r
      · subst hkk
        rw [if_pos rfl]
        congr 1
        simp [List.filter]
      · rw [if_neg hkk]
        have hr : (DataFrame.groupKey names r == k) = false := by
          rw [beq_eq_false_iff_ne]
          exact fun he => hkk he.symm
        rw [show List.filter (fun x => DataFrame.groupKey names x == k) [r] = [] by
          simp [List.filter, hr]]
        rw [List.append_nil]
    · rw [if_neg hmem]
      have hall : ∀ g ∈ (setDedup (data.map (DataFrame.groupKey names))).map
          (fun k => (k, data.filter (fun x => DataFrame.groupKey names x == k))),
          g.1 ≠ DataFrame.groupKey names r := by
        intro g hg
        rcases List.mem_map.mp hg with ⟨k, hk, hkeq⟩
        rw [← hkeq]
        intro he
        exact hmem (by rw [← he]; exact (mem_setDedup _ _).mp hk)
      rw [addToGroups_not_mem _ _ _ hall, List.map_append, List.map_cons, List.map_nil]
      congr 1
      · apply List.map_congr_left
        intro k hk
        rw [List.filter_append]
        have hkne : (DataFrame.groupKey names r == k) = false := by
          rw [beq_eq_false_iff_ne]
          intro he
          exact hmem (by rw [he]; exact (mem_setDedup _ _).mp hk)
        rw [show List.filter (fun x => DataFrame.groupKey names x == k) [r] = [] by
          simp [List.filter, hkne]]
        rw [List.append_nil]
      · rw [List.filter_append]
        have hempty : data.filter
            (fun x => DataFrame.groupKey names x == DataFrame.groupKey names r) = [] := by
          rw [List.filter_eq_nil_iff]
          intro a ha
          simp only [beq_iff_eq]
          intro he
          exact hmem (by rw [← he]; exact List.mem_map_of_mem _ ha)
        rw [hempty, List.nil_append]
        rw [show List.filter (fun x => DataFrame.groupKey names x ==
            DataFrame.groupKey names r) [r] = [r] by simp [List.filter]]

/-- Assigning a key no existing field carries appends the field. -/
theorem objInsert_not_mem (o : List (String × Value)) (k : String) (v : Value)
    (h : ∀ q ∈ o, q.1 ≠ k) : objInsert o k v = o ++ [(k, v)] := by
  induction o with
  | nil => rfl
  | cons q rest ih =>
    obtain ⟨k', v'⟩ := q
    simp only [objInsert, if_neg (h (k', v') (List.mem_cons_self _ _)),
      List.cons_append]
    rw [ih (fun q hq => h q (List.mem_cons_of_mem _ hq))]

/-- A sequence of assignments with pairwise distinct keys builds exactly
that field list (no overwriting happens). -/
theorem objOfAssignments_aux (ps : List (String × Value)) : ∀ acc,
    (ps.map (·.1)).Nodup → (∀ p ∈ ps, ∀ q ∈ acc, q.1 ≠ p.1) →
    (ps.foldl (fun o p => objInsert o p.1 p.2) acc) = acc ++ ps := by
  induction ps with
  | nil => intro acc _ _; rw [List.foldl_nil, List.append_nil]
  | cons p rest ih =>
    intro acc hnd hdisj
    rw [List.foldl_cons]
    rw [objInsert_not_mem acc p.1 p.2
      (fun q hq => hdisj p (List.mem_cons_self _ _) q hq)]
    rw [List.map_cons, List.nodup_cons] at hnd
    obtain ⟨hp, hnd'⟩ := hnd
    have hdisj' : ∀ q ∈ rest, ∀ q' ∈ acc ++ [(p.1, p.2)], q'.1 ≠ q.1 := by
      intro q hq q' hq'
      rcases List.mem_append.mp hq' with h | h
      · exact hdisj q (List.mem_cons_of_mem _ hq) q' h
      · rw [List.mem_singleton] at h
        subst h
        intro he
        exact hp (by rw [he]; exact List.mem_map_of_mem _ hq)
    rw [ih (acc ++ [(p.1, p.2)]) hnd' hdisj']
    rw [List.append_assoc]
    rfl

/-- With pairwise distinct keys the object builder is the identity. -/
theorem objOfAssignments_nodup (ps : List (String × Value))
    (h : (ps.map (·.1)).Nodup) : objOfAssignments ps = ps := by
  unfold objOfAssignments
  rw [objOfAssignments_aux ps [] h (fun p _ q hq => absurd hq (List.not_mem_nil q))]
  rw [List.nil_append]

/-- Converting a bucket row array to a record under distinct column names:
the j-th column name is assigned the bucket's j-th row, `undefined` past the
bucket's end. -/
theorem rowArrayToRecord_nodup (cols : List String) (b : List Value)
    (hnd : cols.Nodup) :
    rowArrayToRecord cols (.arr b) =
      .obj (cols.enum.map (fun ic => (ic.2, b.getD ic.1 .undef))) := by
  unfold rowArrayToRecord
  have hkeys : (((cols.enum.map
      (fun ic => (ic.2, valueIndex (.arr b) ic.1))).map (·.1))).Nodup := by
    rw [List.map_map]
    have hsame : (cols.enum.map ((·.1) ∘ (fun ic : Nat × String =>
        (ic.2, valueIndex (.arr b) ic.1)))) = cols.enum.map Prod.snd :=
      List.map_congr_left (fun x _ => rfl)
    rw [hsame, List.enum_map_snd]
    exact hnd
  rw [objOfAssignments_nodup _ hkeys]
  rfl

/-- The column names the constructor's array-of-arrays branch gives the
`groupBy` result: the source's columns when their number equals the first
bucket's size, synthetic `column1..columnK` otherwise (`K` being the first
bucket's size); an empty bucket list keeps the source's columns. -/
def groupResultCols (cols : List String) (B : List (List Value)) : List String :=
  match B with
  | [] => cols
  | b0 :: _ => if cols.length = b0.length then cols else autoCols b0.length

/-- The buckets the amended claim describes: distinct serialized keys in
first-seen order, each giving the sub-list of rows with that key in
original order. -/
def specBuckets (names : List String) (data : List Value) : List (List Value) :=
  (setDedup (data.map (DataFrame.groupKey names))).map
    (fun k => data.filter (fun r => DataFrame.groupKey names r == k))

/-- What the constructor does to a list of buckets: the first bucket picks
the branch and the column names, and every bucket is folded into a record
column-by-column. -/
theorem mkDataFrame_buckets (cols : List String) (B : List (List Value)) :
    mkDataFrame (.arr (B.map Value.arr)) (some cols) =
      .ok ⟨groupResultCols cols B,
           (B.map Value.arr).map (rowArrayToRecord (groupResultCols cols B)),
           detectColumnTypes (groupResultCols cols B)
             ((B.map Value.arr).map (rowArrayToRecord (groupResultCols cols B)))⟩ := by
  cases B with
  | nil => rfl
  | cons b0 rest => rfl

/-- C2 (amended): `groupBy` buckets the rows by equality of the JSON
serialization of their values at the listed columns (first-seen key order,
original row order inside a bucket: `specBuckets`), then rebuilds a table
from the bucket list through the array-of-arrays constructor branch: the
result's columns are `groupResultCols` (not necessarily one single column),
and — when those names are distinct — result row `i` maps the `j`-th column
name to bucket `i`'s `j`-th row, `undefined` where the bucket is shorter. -/
theorem groupBy_amended (df : DataFrame) (names : List String) (df2 : DataFrame)
    (h : df.groupBy names = .ok df2) :
    df2.columns = groupResultCols df.columns (specBuckets names df.data) ∧
    ((groupResultCols df.columns (specBuckets names df.data)).Nodup →
      df2.data = (specBuckets names df.data).map (fun b =>
        Value.obj ((groupResultCols df.columns (specBuckets names df.data)).enum.map
          (fun ic => (ic.2, b.getD ic.1 .undef))))) := by
  unfold DataFrame.groupBy at h
  rw [groupBuckets_spec] at h
  have hgd : (((setDedup (df.data.map (DataFrame.groupKey names))).map
      (fun k => (k, df.data.filter (fun r => DataFrame.groupKey names r == k)))).map
        (fun g => Value.arr g.2)) = (specBuckets names df.data).map Value.arr := by
    unfold specBuckets
    rw [List.map_map, List.map_map]
    exact List.map_congr_left (fun x _ => rfl)
  rw [hgd, mkDataFrame_buckets] at h
  injection h with h
  rw [← h]
  constructor
  · rfl
  · intro hnd
    show ((specBuckets names df.data).map Value.arr).map
        (rowArrayToRecord (groupResultCols df.columns (specBuckets names df.data))) = _
    rw [List.map_map]
    apply List.map_congr_left
    intro b hb
    exact rowArrayToRecord_nodup _ b hnd

/-- C2 (witness): the amended statement applied to a three-row table whose
column `A` holds 1, 1, 2 — giving buckets of sizes 2 and 1 and synthetic
columns `column1`, `column2`. -/
theorem groupBy_amended_witness :
    (⟨["A"], [.obj [("A", .num 1)], .obj [("A", .num 1)], .obj [("A", .num 2)]],
      [("A", "number")]⟩ : DataFrame).groupBy ["A"] =
      .ok ⟨["column1", "column2"],
           [.obj [("column1", .obj [("A", .num 1)]), ("column2", .obj [("A", .num 1)])],
            .obj [("column1", .obj [("A", .num 2)]), ("column2", .undef)]],
           [("column1", "object"), ("column2", "mixed")]⟩ ∧
    (⟨["column1", "column2"], [], []⟩ : DataFrame).columns =
      ["column1", "column2"] := by
  constructor
  · rfl
  · have h := groupBy_amended
      ⟨["A"], [.obj [("A", .num 1)], .obj [("A", .num 1)], .obj [("A", .num 2)]],
        [("A", "number")]⟩ ["A"]
      ⟨["column1", "column2"],
       [.obj [("column1", .obj [("A", .num 1)]), ("column2", .obj [("A", .num 1)])],
        .obj [("column1", .obj [("A", .num 2)]), ("column2", .undef)]],
       [("column1", "object"), ("column2", "mixed")]⟩ rfl
    exact h.1

/-- C2 (counterexample): grouping a three-row table (column `A` holding
1, 1, 2) produces a table with TWO synthetic columns — the first bucket has
two rows, so the constructor emits `column1` and `column2` — refuting the
claim that the result's column set is a single synthetic column (and with
it the claim that each result row wraps one whole bucket as the value of a
single key). -/
theorem groupBy_not_single_column_counterexample :
    ((⟨["A"], [.obj [("A", .num 1)], .obj [("A", .num 1)], .obj [("A", .num 2)]],
        [("A", "number")]⟩ : DataFrame).groupBy ["A"]).map DataFrame.columns =
      .ok ["column1", "column2"] ∧
    (["column1", "column2"] : List String).length ≠ 1 :=
  ⟨rfl, by decide⟩

/-- Code-point order is irreflexive. -/
theorem charsLt_irrefl (l : List Char) : charsLt l l = false := by
  induction l with
  | nil => rfl
  | cons a t ih =>
    rw [charsLt, if_neg (lt_irrefl a.toNat), if_neg (lt_irrefl a.toNat)]
    exact ih

/-- Code-point order is asymmetric. -/
theorem charsLt_asymm (l1 l2 : List Char) (h : charsLt l1 l2 = true) :
    charsLt l2 l1 = false := by
  induction l1 generalizing l2 with
  | nil =>
    cases l2 with
    | nil => rfl
    | cons b t => rfl
  | cons a t1 ih =>
    cases l2 with
    | nil => cases h
    | cons b t2 =>
      rw [charsLt] at h
      rw [charsLt]
      by_cases hab : a.toNat < b.toNat
      · rw [if_neg (by omega : ¬ b.toNat < a.toNat), if_pos hab]
      · rw [if_neg hab] at h
        by_cases hba : b.toNat < a.toNat
        · rw [if_pos hba] at h
          cases h
        · rw [if_neg hba] at h
          rw [if_neg hba, if_neg hab]
          exact ih t2 h

/-- Two lists neither of which precedes the other are equal. -/
theorem charsLt_eq (l1 l2 : List Char) (h1 : charsLt l1 l2 = false)
    (h2 : charsLt l2 l1 = false) : l1 = l2 := by
  induction l1 generalizing l2 with
  | nil =>
    cases l2 with
    | nil => rfl
    | cons b t => cases h1
  | cons a t1 ih =>
    cases l2 with
    | nil => cases h2
    | cons b t2 =>
      rw [charsLt] at h1 h2
      by_cases hab : a.toNat < b.toNat
      · rw [if_pos hab] at h1; cases h1
      · by_cases hba : b.toNat < a.toNat
        · rw [if_pos hba] at h2; cases h2
        · rw [if_neg hab, if_neg hba] at h1
          rw [if_neg hba, if_neg hab] at h2
          have h3 : a.toNat = b.toNat := by omega
          have hchar : a = b := Char.ext (UInt32.ext h3)
          rw [hchar, ih t2 h1 h2]

/-- Code-point order is transitive. -/
theorem charsLt_trans (l1 l2 l3 : List Char) (h1 : charsLt l1 l2 = true)
    (h2 : charsLt l2 l3 = true) : charsLt l1 l3 = true := by
  induction l1 generalizing l2 l3 with
  | nil =>
    cases l3 with
    | nil =>
      cases l2 with
      | nil => cases h2
      | cons b t => cases h2
    | cons c t => rfl
  | cons a t1 ih =>
    cases l2 with
    | nil => cases h1
    | cons b t2 =>
      cases l3 with
      | nil => cases h2
      | cons c t3 =>
        rw [charsLt] at h1 h2
        rw [charsLt]
        by_cases hab : a.toNat < b.toNat
        · by_cases hbc : b.toNat < c.toNat
          · rw [if_pos (by omega : a.toNat < c.toNat)]
          · rw [if_neg hbc] at h2
            by_cases hcb : c.toNat < b.toNat
            · rw [if_pos hcb] at h2; cases h2
            · have : b.toNat = c.toNat := by omega
              rw [if_pos (by omega : a.toNat < c.toNat)]
        · rw [if_neg hab] at h1
          by_cases hba : b.toNat < a.toNat
          · rw [if_pos hba] at h1; cases h1
          · rw [if_neg hba] at h1
            by_cases hbc : b.toNat < c.toNat
            · rw [if_pos (by omega : a.toNat < c.toNat)]
            · rw [if_neg hbc] at h2
              by_cases hcb : c.toNat < b.toNat
              · rw [if_pos hcb] at h2; cases h2
              · rw [if_neg hcb] at h2
                rw [if_neg (by omega : ¬ a.toNat < c.toNat),
                  if_neg (by omega : ¬ c.toNat < a.toNat)]
                exact ih t2 t3 h1 h2

/-- String order: irreflexive. -/
theorem strLt_irrefl (s : String) : strLt s s = false := charsLt_irrefl s.data

/-- String order: asymmetric. -/
theorem strLt_asymm (s t : String) (h : strLt s t = true) : strLt t s = false :=
  charsLt_asymm s.data t.data h

/-- String order: two incomparable strings are equal. -/
theorem strLt_eq (s t : String) (h1 : strLt s t = false) (h2 : strLt t s = false) :
    s = t := by
  have hd : s.data = t.data := charsLt_eq s.data t.data h1 h2
  cases s
  cases t
  exact congrArg String.mk hd

/-- String order: transitive. -/
theorem strLt_trans (s t u : String) (h1 : strLt s t = true) (h2 : strLt t u = true) :
    strLt s u = true :=
  charsLt_trans s.data t.data u.data h1 h2

/-- Inserting permutes the element in. -/
theorem stableInsert_perm (le : Value → Value → Bool) (a : Value) (l : List Value) :
    (stableInsert le a l).Perm (a :: l) := by
  induction l with
  | nil => exact List.Perm.refl _
  | cons b t ih =>
    rw [stableInsert]
    by_cases h : le a b
    · rw [if_pos h]
    · rw [if_neg h]
      exact List.Perm.trans (List.Perm.cons b ih) (List.Perm.swap a b t)

/-- The stable sort permutes its input. -/
theorem stableSort_perm (le : Value → Value → Bool) (l : List Value) :
    (stableSort le l).Perm l := by
  induction l with
  | nil => exact List.Perm.refl _
  | cons a t ih =>
    rw [stableSort]
    exact List.Perm.trans (stableInsert_perm le a (stableSort le t))
      (List.Perm.cons a ih)

/-- Sorting preserves membership. -/
theorem mem_stableSort (le : Value → Value → Bool) (l : List Value) (x : Value) :
    x ∈ stableSort le l ↔ x ∈ l :=
  (stableSort_perm le l).mem_iff

/-- The insertion point splits the list: the element lands right after the
prefix of entries it does not precede. -/
theorem stableInsert_split (le : Value → Value → Bool) (a : Value) (s : List Value) :
    ∃ s1 s2, stableInsert le a s = s1 ++ a :: s2 ∧ s = s1 ++ s2 ∧
      ∀ b ∈ s1, le a b = false := by
  induction s with
  | nil => exact ⟨[], [], rfl, rfl, fun b hb => absurd hb (List.not_mem_nil b)⟩
  | cons b t ih =>
    by_cases h : le a b
    · exact ⟨[], b :: t, by rw [stableInsert, if_pos h]; rfl, rfl,
        fun c hc => absurd hc (List.not_mem_nil c)⟩
    · obtain ⟨s1, s2, he, hsplit, hfalse⟩ := ih
      refine ⟨b :: s1, s2, ?_, ?_, ?_⟩
      · rw [stableInsert, if_neg h, he, List.cons_append]
      · rw [hsplit, List.cons_append]
      · intro c hc
        rcases List.mem_cons.mp hc with h1 | h1
        · subst h1
          exact Bool.eq_false_iff.mpr h
        · exact hfalse c h1

/-- Inserting into a sorted list keeps it sorted, with totality and
transitivity assumed only over the elements involved. -/
theorem pairwise_stableInsert (le : Value → Value → Bool) (a : Value)
    (s : List Value)
    (hs : List.Pairwise (fun x y => le x y = true) s)
    (htot : ∀ x ∈ s, le a x = true ∨ le x a = true)
    (htrans : ∀ x ∈ a :: s, ∀ y ∈ a :: s, ∀ z ∈ a :: s,
      le x y = true → le y z = true → le x z = true) :
    List.Pairwise (fun x y => le x y = true) (stableInsert le a s) := by
  induction s with
  | nil => exact List.pairwise_singleton _ a
  | cons b t ih =>
    rw [List.pairwise_cons] at hs
    obtain ⟨hb, ht⟩ := hs
    rw [stableInsert]
    by_cases h : le a b
    · rw [if_pos h]
      rw [List.pairwise_cons]
      refine ⟨?_, List.pairwise_cons.mpr ⟨hb, ht⟩⟩
      intro x hx
      rcases List.mem_cons.mp hx with h1 | h1
      · subst h1
        exact h
      · exact htrans a (List.mem_cons_self _ _)
          b (List.mem_cons_of_mem _ (List.mem_cons_self _ _))
          x (List.mem_cons_of_mem _ (List.mem_cons_of_mem _ h1))
          h (hb x h1)
    · rw [if_neg h]
      have hba : le b a = true := by
        rcases htot b (List.mem_cons_self _ _) with h1 | h1
        · exact absurd h1 (by rw [Bool.not_eq_true]; exact Bool.eq_false_iff.mpr h)
        · exact h1
      rw [List.pairwise_cons]
      constructor
      · intro x hx
        rcases List.mem_cons.mp ((stableInsert_perm le a t).mem_iff.mp hx) with h1 | h1
        · subst h1
          exact hba
        · exact hb x h1
      · apply ih ht
        · intro x hx
          exact htot x (List.mem_cons_of_mem _ hx)
        · intro x hx y hy z hz
          apply htrans
          · rcases List.mem_cons.mp hx with h1 | h1
            · exact h1 ▸ List.mem_cons_self _ _
            · exact List.mem_cons_of_mem _ (List.mem_cons_of_mem _ h1)
          · rcases List.mem_cons.mp hy with h1 | h1
            · exact h1 ▸ List.mem_cons_self _ _
            · exact List.mem_cons_of_mem _ (List.mem_cons_of_mem _ h1)
          · rcases List.mem_cons.mp hz with h1 | h1
            · exact h1 ▸ List.mem_cons_self _ _
            · exact List.mem_cons_of_mem _ (List.mem_cons_of_mem _ h1)

/-- The sort output is pairwise ordered, with totality and transitivity
assumed only over the input's elements. -/
theorem sorted_stableSort (le : Value → Value → Bool) (l : List Value)
    (htot : ∀ x ∈ l, ∀ y ∈ l, le x y = true ∨ le y x = true)
    (htrans : ∀ x ∈ l, ∀ y ∈ l, ∀ z ∈ l,
      le x y = true → le y z = true → le x z = true) :
    List.Pairwise (fun x y => le x y = true) (stableSort le l) := by
  induction l with
  | nil => exact List.Pairwise.nil
  | cons a t ih =>
    rw [stableSort]
    apply pairwise_stableInsert
    · exact ih
        (fun x hx y hy => htot x (List.mem_cons_of_mem _ hx) y (List.mem_cons_of_mem _ hy))
        (fun x hx y hy z hz => htrans x (List.mem_cons_of_mem _ hx)
          y (List.mem_cons_of_mem _ hy) z (List.mem_cons_of_mem _ hz))
    · intro x hx
      exact htot a (List.mem_cons_self _ _) x
        (List.mem_cons_of_mem _ ((mem_stableSort le t x).mp hx))
    · intro x hx y hy z hz
      have hm : ∀ w, w ∈ a :: stableSort le t → w ∈ a :: t := by
        intro w hw
        rcases List.mem_cons.mp hw with h1 | h1
        · exact h1 ▸ List.mem_cons_self _ _
        · exact List.mem_cons_of_mem _ ((mem_stableSort le t w).mp h1)
      exact htrans x (hm x hx) y (hm y hy) z (hm z hz)

/-- Stability: elements tied under the comparator keep their original
relative order — filtering any class of mutually tied elements out of the
sorted list gives the same sequence as filtering the input. -/
theorem filter_stableSort (le : Value → Value → Bool) (p : Value → Bool)
    (l : List Value)
    (htie : ∀ x ∈ l, ∀ y ∈ l, p x = true → p y = true → le x y = true) :
    (stableSort le l).filter p = l.filter p := by
  induction l with
  | nil => rfl
  | cons a t ih =>
    have hst : (stableSort le t).filter p = t.filter p :=
      ih (fun x hx y hy => htie x (List.mem_cons_of_mem a hx) y (List.mem_cons_of_mem a hy))
    rw [stableSort, List.filter_cons]
    obtain ⟨s1, s2, he, hsplit, hfalse⟩ := stableInsert_split le a (stableSort le t)
    by_cases hpa : p a
    · rw [if_pos hpa, he, List.filter_append, List.filter_cons, if_pos hpa]
      have hs1 : s1.filter p = [] := by
        rw [List.filter_eq_nil_iff]
        intro b hb
        have hbt : b ∈ t := (mem_stableSort le t b).mp
          (by rw [hsplit]; exact List.mem_append.mpr (Or.inl hb))
        intro hpb
        have hle := htie a (List.mem_cons_self _ _) b (List.mem_cons_of_mem a hbt) hpa hpb
        rw [hfalse b hb] at hle
        cases hle
      have hs2 : s2.filter p = t.filter p := by
        rw [← hst, hsplit, List.filter_append, hs1, List.nil_append]
      rw [hs1, List.nil_append, hs2]
    · rw [if_neg hpa, he, List.filter_append, List.filter_cons, if_neg hpa]
      rw [← List.filter_append, ← hsplit, hst]

/-- Both values are numbers, or both are strings. -/
def samePrim (v1 v2 : Value) : Prop :=
  (v1.isNum = true ∧ v2.isNum = true) ∨ (v1.isStr = true ∧ v2.isStr = true)

/-- The claim's "natural ordering of the runtime type": numeric for
numbers, lexical for strings (other shapes never meet it under the claim's
hypothesis). -/
def natOrdLt (a b : Value) : Bool :=
  match a, b with
  | .num x, .num y => decide (x < y)
  | .str x, .str y => strLt x y
  | _, _ => false

/-- The order the claim describes on rows: the first listed column on which
the two rows differ decides, by the natural ordering of the type, reversed
uniformly when descending; rows equal on every listed column are tied. -/
def specLe (names : List String) (ascending : Bool) (r1 r2 : Value) : Bool :=
  match names with
  | [] => true
  | n :: rest =>
    let v1 := rowGet r1 n
    let v2 := rowGet r2 n
    if Value.beq v1 v2 then specLe rest ascending r1 r2
    else if ascending then natOrdLt v1 v2 else natOrdLt v2 v1

/-- The tuple of a row's values at the listed columns. -/
def rowKeyVals (names : List String) (r : Value) : List Value :=
  names.map (rowGet r)

/-- A number-value has a number payload. -/
theorem isNum_exists (v : Value) (h : v.isNum = true) : ∃ q, v = .num q := by
  cases v <;> first
  | exact ⟨_, rfl⟩
  | simp [Value.isNum] at h

/-- A string-value has a string payload. -/
theorem isStr_exists (v : Value) (h : v.isStr = true) : ∃ s, v = .str s := by
  cases v <;> first
  | exact ⟨_, rfl⟩
  | simp [Value.isStr] at h

/-- On two numbers or two strings, the relational comparison is the natural
ordering the claim names. -/
theorem jsLt_eq_natOrdLt (v1 v2 : Value) (h : samePrim v1 v2) :
    jsLt v1 v2 = natOrdLt v1 v2 := by
  rcases h with ⟨h1, h2⟩ | ⟨h1, h2⟩
  · obtain ⟨x, rfl⟩ := isNum_exists v1 h1
    obtain ⟨y, rfl⟩ := isNum_exists v2 h2
    rfl
  · obtain ⟨s, rfl⟩ := isStr_exists v1 h1
    obtain ⟨t, rfl⟩ := isStr_exists v2 h2
    rfl

/-- Typed irreflexivity of the relational comparison. -/
theorem jsLt_irrefl_prim (v : Value) (h : v.isNum = true ∨ v.isStr = true) :
    jsLt v v = false := by
  rcases h with h | h
  · obtain ⟨x, rfl⟩ := isNum_exists v h
    rw [show jsLt (Value.num x) (Value.num x) = decide (x < x) from rfl]
    rw [decide_eq_false_iff_not]
    exact lt_irrefl x
  · obtain ⟨s, rfl⟩ := isStr_exists v h
    exact strLt_irrefl s

/-- Typed asymmetry of the relational comparison. -/
theorem jsLt_asymm_prim (v1 v2 : Value) (h : samePrim v1 v2)
    (hlt : jsLt v1 v2 = true) : jsLt v2 v1 = false := by
  rcases h with ⟨h1, h2⟩ | ⟨h1, h2⟩
  · obtain ⟨x, rfl⟩ := isNum_exists v1 h1
    obtain ⟨y, rfl⟩ := isNum_exists v2 h2
    rw [show jsLt (Value.num x) (Value.num y) = decide (x < y) from rfl,
      decide_eq_true_eq] at hlt
    rw [show jsLt (Value.num y) (Value.num x) = decide (y < x) from rfl,
      decide_eq_false_iff_not]
    exact lt_asymm hlt
  · obtain ⟨s, rfl⟩ := isStr_exists v1 h1
    obtain ⟨t, rfl⟩ := isStr_exists v2 h2
    exact strLt_asymm s t hlt

/-- Typed: incomparable values are equal. -/
theorem jsLt_eq_prim (v1 v2 : Value) (h : samePrim v1 v2)
    (h1 : jsLt v1 v2 = false) (h2 : jsLt v2 v1 = false) : v1 = v2 := by
  rcases h with ⟨ha, hb⟩ | ⟨ha, hb⟩
  · obtain ⟨x, rfl⟩ := isNum_exists v1 ha
    obtain ⟨y, rfl⟩ := isNum_exists v2 hb
    rw [show jsLt (Value.num x) (Value.num y) = decide (x < y) from rfl,
      decide_eq_false_iff_not] at h1
    rw [show jsLt (Value.num y) (Value.num x) = decide (y < x) from rfl,
      decide_eq_false_iff_not] at h2
    rw [le_antisymm (not_lt.mp h2) (not_lt.mp h1)]
  · obtain ⟨s, rfl⟩ := isStr_exists v1 ha
    obtain ⟨t, rfl⟩ := isStr_exists v2 hb
    rw [strLt_eq s t h1 h2]

/-- Typed transitivity of the relational comparison. -/
theorem jsLt_trans_prim (v1 v2 v3 : Value) (h12 : samePrim v1 v2)
    (h23 : samePrim v2 v3) (l12 : jsLt v1 v2 = true) (l23 : jsLt v2 v3 = true) :
    jsLt v1 v3 = true := by
  rcases h12 with ⟨ha, hb⟩ | ⟨ha, hb⟩
  · obtain ⟨x, rfl⟩ := isNum_exists v1 ha
    obtain ⟨y, rfl⟩ := isNum_exists v2 hb
    rcases h23 with ⟨_, hc⟩ | ⟨hc, _⟩
    · obtain ⟨z, rfl⟩ := isNum_exists v3 hc
      rw [show jsLt (Value.num x) (Value.num y) = decide (x < y) from rfl,
        decide_eq_true_eq] at l12
      rw [show jsLt (Value.num y) (Value.num z) = decide (y < z) from rfl,
        decide_eq_true_eq] at l23
      rw [show jsLt (Value.num x) (Value.num z) = decide (x < z) from rfl,
        decide_eq_true_eq]
      exact lt_trans l12 l23
    · simp [Value.isStr] at hc
  · obtain ⟨s, rfl⟩ := isStr_exists v1 ha
    obtain ⟨t, rfl⟩ := isStr_exists v2 hb
    rcases h23 with ⟨hc, _⟩ | ⟨_, hc⟩
    · simp [Value.isNum] at hc
    · obtain ⟨u, rfl⟩ := isStr_exists v3 hc
      exact strLt_trans s t u l12 l23

/-- Structural equality is plain equality on numbers and strings. -/
theorem beq_eq_prim (v1 v2 : Value) (h : v1.isNum = true ∨ v1.isStr = true) :
    Value.beq v1 v2 = true ↔ v1 = v2 := by
  rcases h with h | h
  · obtain ⟨x, rfl⟩ := isNum_exists v1 h
    cases v2 <;> simp [Value.beq]
  · obtain ⟨s, rfl⟩ := isStr_exists v1 h
    cases v2 <;> simp [Value.beq]

/-- Type uniformity of the two rows' values at every listed column. -/
def pairUniform (names : List String) (r1 r2 : Value) : Prop :=
  ∀ n ∈ names, samePrim (rowGet r1 n) (rowGet r2 n)

/-- The claim's hypothesis on one column: a single runtime type (number or
string) across every row. -/
def colUniform (data : List Value) (n : String) : Bool :=
  data.all (fun r => (rowGet r n).isNum) || data.all (fun r => (rowGet r n).isStr)

/-- The claim's hypothesis: every listed sort column holds values of a
single runtime type. -/
def colsUniform (data : List Value) (names : List String) : Bool :=
  names.all (colUniform data)

/-- Uniform columns make any two rows pairwise type-uniform. -/
theorem colsUniform_pair (data : List Value) (names : List String)
    (h : colsUniform data names = true) (r1 r2 : Value)
    (h1 : r1 ∈ data) (h2 : r2 ∈ data) : pairUniform names r1 r2 := by
  intro n hn
  unfold colsUniform at h
  rw [List.all_eq_true] at h
  have hc := h n hn
  unfold colUniform at hc
  rw [Bool.or_eq_true, List.all_eq_true, List.all_eq_true] at hc
  rcases hc with hc | hc
  · exact Or.inl ⟨hc r1 h1, hc r2 h2⟩
  · exact Or.inr ⟨hc r1 h1, hc r2 h2⟩

/-- Uniform columns give each row a number-or-string value at every listed
column. -/
theorem colsUniform_row (data : List Value) (names : List String)
    (h : colsUniform data names = true) (r : Value) (hr : r ∈ data) :
    ∀ n ∈ names, (rowGet r n).isNum = true ∨ (rowGet r n).isStr = true := by
  intro n hn
  rcases colsUniform_pair data names h r r hr hr n hn with ⟨ha, _⟩ | ⟨ha, _⟩
  · exact Or.inl ha
  · exact Or.inr ha

/-- Pair uniformity is symmetric. -/
theorem pairUniform_symm (names : List String) (r1 r2 : Value)
    (h : pairUniform names r1 r2) : pairUniform names r2 r1 := by
  intro n hn
  rcases h n hn with ⟨ha, hb⟩ | ⟨ha, hb⟩
  · exact Or.inl ⟨hb, ha⟩
  · exact Or.inr ⟨hb, ha⟩

/-- The comparator is antisymmetric on type-uniform rows. -/
theorem rowCmp_neg (names : List String) (asc : Bool) (r1 r2 : Value)
    (h : pairUniform names r1 r2) :
    DataFrame.rowCmp names asc r1 r2 = -(DataFrame.rowCmp names asc r2 r1) := by
  induction names with
  | nil => rfl
  | cons n rest ih =>
    have hp := h n (List.mem_cons_self _ _)
    have hrest : pairUniform rest r1 r2 := fun m hm => h m (List.mem_cons_of_mem _ hm)
    simp only [DataFrame.rowCmp, jsGt]
    by_cases h12 : jsLt (rowGet r1 n) (rowGet r2 n) = true
    · have h21 : jsLt (rowGet r2 n) (rowGet r1 n) = false := jsLt_asymm_prim _ _ hp h12
      simp only [h12, h21]
      cases asc <;> simp
    · rw [Bool.not_eq_true] at h12
      simp only [h12]
      by_cases h21 : jsLt (rowGet r2 n) (rowGet r1 n) = true
      · simp only [h21]
        cases asc <;> simp
      · rw [Bool.not_eq_true] at h21
        simp only [h21]
        simpa using ih hrest

/-- Descending comparison is ascending comparison of the swapped rows. -/
theorem rowCmp_desc (names : List String) (r1 r2 : Value)
    (h : pairUniform names r1 r2) :
    DataFrame.rowCmp names false r1 r2 = DataFrame.rowCmp names true r2 r1 := by
  induction names with
  | nil => rfl
  | cons n rest ih =>
    have hp := h n (List.mem_cons_self _ _)
    have hrest : pairUniform rest r1 r2 := fun m hm => h m (List.mem_cons_of_mem _ hm)
    simp only [DataFrame.rowCmp, jsGt]
    by_cases h12 : jsLt (rowGet r1 n) (rowGet r2 n) = true
    · have h21 : jsLt (rowGet r2 n) (rowGet r1 n) = false := jsLt_asymm_prim _ _ hp h12
      simp only [h12, h21]
      simp
    · rw [Bool.not_eq_true] at h12
      simp only [h12]
      by_cases h21 : jsLt (rowGet r2 n) (rowGet r1 n) = true
      · simp only [h21]
        simp
      · rw [Bool.not_eq_true] at h21
        simp only [h21]
        simpa using ih hrest

/-- The comparator is transitive (ascending) on type-uniform rows. -/
theorem rowCmp_trans_asc (names : List String) (r1 r2 r3 : Value)
    (h12 : pairUniform names r1 r2) (h23 : pairUniform names r2 r3)
    (c12 : DataFrame.rowCmp names true r1 r2 ≤ 0)
    (c23 : DataFrame.rowCmp names true r2 r3 ≤ 0) :
    DataFrame.rowCmp names true r1 r3 ≤ 0 := by
  induction names with
  | nil => exact c12
  | cons n rest ih =>
    have hp12 := h12 n (List.mem_cons_self _ _)
    have hp23 := h23 n (List.mem_cons_self _ _)
    have hr12 : pairUniform rest r1 r2 := fun m hm => h12 m (List.mem_cons_of_mem _ hm)
    have hr23 : pairUniform rest r2 r3 := fun m hm => h23 m (List.mem_cons_of_mem _ hm)
    simp only [DataFrame.rowCmp, jsGt] at c12 c23 ⊢
    by_cases huv : jsLt (rowGet r1 n) (rowGet r2 n) = true
    · simp only [huv] at c12
      by_cases hvw : jsLt (rowGet r2 n) (rowGet r3 n) = true
      · simp only [jsLt_trans_prim _ _ _ hp12 hp23 huv hvw]
        simp
      · rw [Bool.not_eq_true] at hvw
        simp only [hvw] at c23
        by_cases hwv : jsLt (rowGet r3 n) (rowGet r2 n) = true
        · simp only [hwv] at c23
          simp at c23
        · rw [Bool.not_eq_true] at hwv
          have hveq : rowGet r2 n = rowGet r3 n := jsLt_eq_prim _ _ hp23 hvw hwv
          have hx : jsLt (rowGet r1 n) (rowGet r3 n) = true := by
            rw [← hveq]; exact huv
          simp only [hx]
          simp
    · rw [Bool.not_eq_true] at huv
      simp only [huv] at c12
      by_cases hvu : jsLt (rowGet r2 n) (rowGet r1 n) = true
      · simp only [hvu] at c12
        simp at c12
      · rw [Bool.not_eq_true] at hvu
        simp only [hvu] at c12
        simp at c12
        have hueq : rowGet r1 n = rowGet r2 n := jsLt_eq_prim _ _ hp12 huv hvu
        by_cases hvw : jsLt (rowGet r2 n) (rowGet r3 n) = true
        · have hx : jsLt (rowGet r1 n) (rowGet r3 n) = true := by
            rw [hueq]; exact hvw
          simp only [hx]
          simp
        · rw [Bool.not_eq_true] at hvw
          simp only [hvw] at c23
          by_cases hwv : jsLt (rowGet r3 n) (rowGet r2 n) = true
          · simp only [hwv] at c23
            simp at c23
          · rw [Bool.not_eq_true] at hwv
            simp only [hwv] at c23
            simp at c23
            have hveq : rowGet r2 n = rowGet r3 n := jsLt_eq_prim _ _ hp23 hvw hwv
            have hw : (rowGet r3 n).isNum = true ∨ (rowGet r3 n).isStr = true := by
              rcases hp23 with ⟨_, hb⟩ | ⟨_, hb⟩
              · exact Or.inl hb
              · exact Or.inr hb
            have huw : jsLt (rowGet r1 n) (rowGet r3 n) = false := by
              rw [hueq, hveq]
              exact jsLt_irrefl_prim _ hw
            have hwu : jsLt (rowGet r3 n) (rowGet r1 n) = false := by
              rw [hueq, hveq]
              exact jsLt_irrefl_prim _ hw
            simp only [huw, hwu]
            simpa using ih hr12 hr23 c12 c23

/-- On type-uniform rows, the code's comparator lowered to "less or equal"
is exactly the order the claim describes. -/
theorem rowLe_eq_specLe (names : List String) (asc : Bool) (r1 r2 : Value)
    (h : pairUniform names r1 r2) :
    decide (DataFrame.rowCmp names asc r1 r2 ≤ 0) = specLe names asc r1 r2 := by
  induction names with
  | nil => rfl
  | cons n rest ih =>
    have hp := h n (List.mem_cons_self _ _)
    have hpsym : samePrim (rowGet r2 n) (rowGet r1 n) := by
      rcases hp with ⟨ha, hb⟩ | ⟨ha, hb⟩
      · exact Or.inl ⟨hb, ha⟩
      · exact Or.inr ⟨hb, ha⟩
    have hrest : pairUniform rest r1 r2 := fun m hm => h m (List.mem_cons_of_mem _ hm)
    have h1ns : (rowGet r1 n).isNum = true ∨ (rowGet r1 n).isStr = true := by
      rcases hp with ⟨ha, _⟩ | ⟨ha, _⟩
      · exact Or.inl ha
      · exact Or.inr ha
    have h2ns : (rowGet r2 n).isNum = true ∨ (rowGet r2 n).isStr = true := by
      rcases hp with ⟨_, hb⟩ | ⟨_, hb⟩
      · exact Or.inl hb
      · exact Or.inr hb
    simp only [DataFrame.rowCmp, jsGt, specLe,
      ← jsLt_eq_natOrdLt (rowGet r1 n) (rowGet r2 n) hp,
      ← jsLt_eq_natOrdLt (rowGet r2 n) (rowGet r1 n) hpsym]
    by_cases h12 : jsLt (rowGet r1 n) (rowGet r2 n) = true
    · have hne : rowGet r1 n ≠ rowGet r2 n := by
        intro he
        rw [he] at h12
        rw [jsLt_irrefl_prim _ h2ns] at h12
        cases h12
      have hbeq : Value.beq (rowGet r1 n) (rowGet r2 n) = false := by
        rw [Bool.eq_false_iff]
        intro hb
        exact hne ((beq_eq_prim _ _ h1ns).mp hb)
      have h21 : jsLt (rowGet r2 n) (rowGet r1 n) = false := jsLt_asymm_prim _ _ hp h12
      simp only [h12, hbeq, h21]
      cases asc <;> simp
    · rw [Bool.not_eq_true] at h12
      by_cases h21 : jsLt (rowGet r2 n) (rowGet r1 n) = true
      · have hne : rowGet r1 n ≠ rowGet r2 n := by
          intro he
          rw [he] at h21
          rw [jsLt_irrefl_prim _ h2ns] at h21
          cases h21
        have hbeq : Value.beq (rowGet r1 n) (rowGet r2 n) = false := by
          rw [Bool.eq_false_iff]
          intro hb
          exact hne ((beq_eq_prim _ _ h1ns).mp hb)
        simp only [h12, hbeq, h21]
        cases asc <;> simp
      · rw [Bool.not_eq_true] at h21
        have hueq : rowGet r1 n = rowGet r2 n := jsLt_eq_prim _ _ hp h12 h21
        have hbeq : Value.beq (rowGet r1 n) (rowGet r2 n) = true :=
          (beq_eq_prim _ _ h1ns).mpr hueq
        simp only [h12, h21, hbeq]
        simpa using ih hrest

/-- Rows agreeing on every listed column compare as a tie. -/
theorem rowCmp_eq_zero_of_keys_eq (names : List String) (asc : Bool) (r1 r2 : Value)
    (h : pairUniform names r1 r2)
    (hk : ∀ n ∈ names, rowGet r1 n = rowGet r2 n) :
    DataFrame.rowCmp names asc r1 r2 = 0 := by
  induction names with
  | nil => rfl
  | cons n rest ih =>
    have hp := h n (List.mem_cons_self _ _)
    have h2ns : (rowGet r2 n).isNum = true ∨ (rowGet r2 n).isStr = true := by
      rcases hp with ⟨_, hb⟩ | ⟨_, hb⟩
      · exact Or.inl hb
      · exact Or.inr hb
    have he := hk n (List.mem_cons_self _ _)
    have h12 : jsLt (rowGet r1 n) (rowGet r2 n) = false := by
      rw [he]
      exact jsLt_irrefl_prim _ h2ns
    have h21 : jsLt (rowGet r2 n) (rowGet r1 n) = false := by
      rw [he]
      exact jsLt_irrefl_prim _ h2ns
    simp only [DataFrame.rowCmp, jsGt, h12, h21]
    simp only [Bool.false_eq_true, if_false]
    exact ih (fun m hm => h m (List.mem_cons_of_mem _ hm))
      (fun m hm => hk m (List.mem_cons_of_mem _ hm))

/-- Equal maps over the same list are pointwise equal on its members. -/
theorem map_eq_pointwise {α β : Type} (f g : α → β) (l : List α)
    (h : l.map f = l.map g) : ∀ a ∈ l, f a = g a := by
  induction l with
  | nil => intro a ha; cases ha
  | cons x t ih =>
    rw [List.map_cons, List.map_cons] at h
    injection h with h1 h2
    intro a ha
    rcases List.mem_cons.mp ha with h3 | h3
    · rw [h3]
      exact h1
    · exact ih h2 a h3

/-- A Boolean key-tuple match pins the key tuple down, provided the row's
values at the listed columns are numbers or strings. -/
theorem rowKey_eq_of_beq (names : List String) (x : Value) (K : List Value)
    (hx : ∀ n ∈ names, (rowGet x n).isNum = true ∨ (rowGet x n).isStr = true)
    (h : Value.beqList (rowKeyVals names x) K = true) :
    rowKeyVals names x = K := by
  induction names generalizing K with
  | nil =>
    cases K with
    | nil => rfl
    | cons b bs => cases h
  | cons n rest ih =>
    cases K with
    | nil => cases h
    | cons b bs =>
      unfold rowKeyVals at h ⊢
      rw [List.map_cons] at h ⊢
      rw [Value.beqList, Bool.and_eq_true] at h
      obtain ⟨h1, h2⟩ := h
      have he : rowGet x n = b :=
        (beq_eq_prim _ _ (hx n (List.mem_cons_self _ _))).mp h1
      rw [he]
      have := ih bs (fun m hm => hx m (List.mem_cons_of_mem _ hm)) h2
      unfold rowKeyVals at this
      rw [this]

/-- The constructor on a list of records (or an empty list) stores the rows
untouched. -/
theorem mkDataFrame_records (rows : List Value) (cols : List String)
    (hobj : rows.all Value.isObj = true) :
    ∃ cs, mkDataFrame (.arr rows) (some cols) = .ok ⟨cs, rows, detectColumnTypes cs rows⟩ := by
  cases rows with
  | nil => exact ⟨cols, rfl⟩
  | cons r rest =>
    have hr : r.isObj = true := by
      rw [List.all_cons, Bool.and_eq_true] at hobj
      exact hobj.1
    cases r with
    | obj fs => exact ⟨objectKeys (.obj fs), rfl⟩
    | num q => simp [Value.isObj] at hr
    | str s => simp [Value.isObj] at hr
    | bool b => simp [Value.isObj] at hr
    | undef => simp [Value.isObj] at hr
    | nan => simp [Value.isObj] at hr
    | arr l => simp [Value.isObj] at hr

/-- C5: on a table of records whose listed sort columns each hold values of
a single runtime type (numbers or strings), `sortBy` returns a table whose
rows are a permutation of the source rows, pairwise ordered by the claim's
order (`specLe`: first differing listed column decides, naturally per type,
reversed uniformly when descending), and stable: the rows of any one key
tuple appear in their original relative order. -/
theorem sortBy_sorted_stable_perm (df : DataFrame) (names : List String)
    (asc : Bool) (df2 : DataFrame)
    (hobj : df.data.all Value.isObj = true)
    (hu : colsUniform df.data names = true)
    (h : df.sortBy names asc = .ok df2) :
    df2.data.Perm df.data ∧
    List.Pairwise (fun r1 r2 => specLe names asc r1 r2 = true) df2.data ∧
    (∀ K : List Value,
      df2.data.filter (fun r => Value.beqList (rowKeyVals names r) K) =
        df.data.filter (fun r => Value.beqList (rowKeyVals names r) K)) := by
  have hdata : df2.data =
      stableSort (fun r1 r2 => decide (DataFrame.rowCmp names asc r1 r2 ≤ 0)) df.data := by
    unfold DataFrame.sortBy at h
    have hall : (stableSort (fun r1 r2 =>
        decide (DataFrame.rowCmp names asc r1 r2 ≤ 0)) df.data).all Value.isObj = true := by
      rw [List.all_eq_true] at hobj ⊢
      intro x hx
      exact hobj x ((mem_stableSort _ df.data x).mp hx)
    obtain ⟨cs, heq⟩ := mkDataFrame_records _ df.columns hall
    rw [heq] at h
    injection h with h
    rw [← h]
  set le := fun r1 r2 : Value => decide (DataFrame.rowCmp names asc r1 r2 ≤ 0) with hle
  have hperm : df2.data.Perm df.data := by
    rw [hdata]
    exact stableSort_perm le df.data
  refine ⟨hperm, ?_, ?_⟩
  · -- sortedness
    have hsorted : List.Pairwise (fun x y => le x y = true) (stableSort le df.data) := by
      apply sorted_stableSort
      · intro x hx y hy
        have hp := colsUniform_pair df.data names hu x y hx hy
        have hneg := rowCmp_neg names asc x y hp
        simp only [hle, decide_eq_true_eq]
        omega
      · intro x hx y hy z hz hxy hyz
        simp only [hle, decide_eq_true_eq] at hxy hyz ⊢
        have hpxy := colsUniform_pair df.data names hu x y hx hy
        have hpyz := colsUniform_pair df.data names hu y z hy hz
        cases asc
        · rw [rowCmp_desc names x y hpxy] at hxy
          rw [rowCmp_desc names y z hpyz] at hyz
          rw [rowCmp_desc names x z (colsUniform_pair df.data names hu x z hx hz)]
          exact rowCmp_trans_asc names z y x
            (pairUniform_symm names y z hpyz) (pairUniform_symm names x y hpxy) hyz hxy
        · exact rowCmp_trans_asc names x y z hpxy hpyz hxy hyz
    rw [hdata]
    apply List.Pairwise.imp_of_mem ?_ hsorted
    intro a b ha hb hab
    have hp := colsUniform_pair df.data names hu a b
      ((mem_stableSort le df.data a).mp ha) ((mem_stableSort le df.data b).mp hb)
    rw [← rowLe_eq_specLe names asc a b hp]
    exact hab
  · -- stability
    intro K
    rw [hdata]
    apply filter_stableSort
    intro x hx y hy hpx hpy
    have hxu := colsUniform_row df.data names hu x hx
    have hyu := colsUniform_row df.data names hu y hy
    have hkx := rowKey_eq_of_beq names x K hxu hpx
    have hky := rowKey_eq_of_beq names y K hyu hpy
    have hkeys : ∀ n ∈ names, rowGet x n = rowGet y n := by
      have : rowKeyVals names x = rowKeyVals names y := by rw [hkx, hky]
      exact map_eq_pointwise _ _ names this
    have hp := colsUniform_pair df.data names hu x y hx hy
    have hz := rowCmp_eq_zero_of_keys_eq names asc x y hp hkeys
    simp only [hle, decide_eq_true_eq, hz]
    omega

/-- C5 (witness): the statement applied to the sample table sorted by
`Age`, descending. -/
theorem sortBy_sorted_stable_perm_witness :
    sampleDF.data.all Value.isObj = true ∧
    colsUniform sampleDF.data ["Age"] = true ∧
    (⟨["ID", "Name", "Age"],
      [.obj [("ID", .num 2), ("Name", .str "Jane"), ("Age", .num 30)],
       .obj [("ID", .num 3), ("Name", .str "Sam"), ("Age", .num 28)],
       .obj [("ID", .num 1), ("Name", .str "John"), ("Age", .num 25)]],
      [("ID", "number"), ("Name", "string"), ("Age", "number")]⟩ :
        DataFrame).data.Perm sampleDF.data :=
  ⟨rfl, rfl,
   (sortBy_sorted_stable_perm sampleDF ["Age"] false _ rfl rfl rfl).1⟩
